import Mathlib

set_option maxHeartbeats 2000000
set_option maxRecDepth 4000
set_option linter.unnecessarySeqFocus false

/-!
Shallow embedding of the voxel world streaming core of the repository
(`src/world.rs`, `src/settings.rs`).  Machine integers (`i32`, `u32`) are
embedded as `ℤ`/`ℕ` (all quantities involved stay far from the 32-bit
range), `f32` noise samples and mesh attributes as `ℚ`, and the
`FastNoiseLite` samplers as abstract rational-valued functions of the
integer world coordinates at which the code samples them.
-/

namespace ProjectRube

/-- Integer 3-vector, embedding `bevy`'s `IVec3` as used for chunk coordinates. -/
structure IVec3 where
  x : ℤ
  y : ℤ
  z : ℤ
deriving DecidableEq, Repr

/-- Chunk edge length in blocks (`world.rs`: `CHUNK_SIZE = 32`). -/
def CHUNK_SIZE : ℤ := 32

/-- Maximum world height in blocks (`world.rs`: `MAX_HEIGHT = 256`). -/
def MAX_HEIGHT : ℤ := 256

/-- Number of vertical chunks (`world.rs`: `MAX_CHUNKS_Y = MAX_HEIGHT / CHUNK_SIZE`). -/
def MAX_CHUNKS_Y : ℤ := MAX_HEIGHT / CHUNK_SIZE

/-- Horizontal Chebyshev distance between two chunk coordinates, as computed by
`spawn_required_chunks` (`(coord.x - player.x).abs().max((coord.z - player.z).abs())`). -/
def chebH (a b : IVec3) : ℤ := max |a.x - b.x| |a.z - b.z|

/-- Lookup in an association-list model of a `HashMap<IVec3, _>`. -/
def mlookup (k : IVec3) : List (IVec3 × ℕ) → Option ℕ
  | [] => none
  | e :: r => if e.1 = k then some e.2 else mlookup k r

/-- `HashMap::remove` on the association-list model. -/
def mremove (k : IVec3) : List (IVec3 × ℕ) → List (IVec3 × ℕ)
  | [] => []
  | e :: r => if e.1 = k then mremove k r else e :: mremove k r

/-- `HashMap::insert` on the association-list model (replaces any old entry). -/
def minsert (k : IVec3) (v : ℕ) (m : List (IVec3 × ℕ)) : List (IVec3 × ℕ) :=
  (k, v) :: mremove k m

/-- The integer range `lo..=hi` of a Rust `for` loop, as a list. -/
def intRange (lo hi : ℤ) : List ℤ :=
  (List.range (hi + 1 - lo).toNat).map (fun k : ℕ => lo + (k : ℤ))

/-- Nested iteration (`for a in as { for b in bs { ... } }`) as a product list. -/
def listProd {α β : Type} : List α → List β → List (α × β)
  | [], _ => []
  | a :: r, bs => bs.map (Prod.mk a) ++ listProd r bs

/-- Scheduler state: the `ChunkMap` resident map (coordinate to the `lod` stored
on the spawned `Chunk` entity), the `PendingTasks` map (coordinate to requested
`lod`), and `LastChunk`.  This packages the resources mutated by
`spawn_required_chunks` / `process_chunk_tasks` in `world.rs`. -/
structure SchedState where
  entities : List (IVec3 × ℕ)
  pending : List (IVec3 × ℕ)
  lastChunk : Option IVec3
deriving DecidableEq, Repr

/-- The empty scheduler state (`ChunkMap::default`, `PendingTasks::default`,
`LastChunk::default`). -/
def initialSched : SchedState := ⟨[], [], none⟩

/-- The required LOD for ring offset `(x, z)` from the player chunk
(`world.rs` line 223-224: `let dist = x.abs().max(z.abs()); if dist <= 6 { 1 } else { 2 }`). -/
def reqLod (x z : ℤ) : ℕ := if max |x| |z| ≤ 6 then 1 else 2

/-- The chunk coordinate requested for loop offsets `((x, z), y)`
(`world.rs` line 226: `IVec3::new(player_chunk.x + x, y, player_chunk.z + z)`). -/
def coordOf (pc : IVec3) (t : (ℤ × ℤ) × ℤ) : IVec3 :=
  ⟨pc.x + t.1.1, t.2, pc.z + t.1.2⟩

/-- The loop offsets visited by `spawn_required_chunks`
(`for x in -w..=w { for z in -w..=w { for y in 0..MAX_CHUNKS_Y { ... } } }`). -/
def reqTriples (w : ℤ) : List ((ℤ × ℤ) × ℤ) :=
  listProd (listProd (intRange (-w) w) (intRange (-w) w)) (intRange 0 (MAX_CHUNKS_Y - 1))

/-- The pending-map phase of the per-coordinate body of `spawn_required_chunks`
(`world.rs` lines 241-253): an in-flight task at the required LOD is kept,
one at a stale LOD is dropped, and a task is spawned otherwise. -/
def pendPhase (c : IVec3) (rl : ℕ) (st : SchedState) : SchedState :=
  match mlookup c st.pending with
  | some l =>
      if l = rl then st
      else { st with pending := minsert c rl (mremove c st.pending) }
  | none => { st with pending := minsert c rl st.pending }

/-- The per-coordinate body of the queueing loop of `spawn_required_chunks`
(`world.rs` lines 223-253): a resident chunk at the required LOD is kept
(`continue`), one at a stale LOD is despawned and removed before the
pending-map phase runs. -/
def reqStep (pc : IVec3) (st : SchedState) (t : (ℤ × ℤ) × ℤ) : SchedState :=
  let c := coordOf pc t
  let rl := reqLod t.1.1 t.1.2
  match mlookup c st.entities with
  | some l =>
      if l = rl then st
      else pendPhase c rl { st with entities := mremove c st.entities }
  | none => pendPhase c rl st

/-- One run of the `spawn_required_chunks` system (`world.rs` lines 183-259)
for a player currently in chunk `pc`: skip when the player chunk is unchanged,
otherwise despawn resident chunks with horizontal Chebyshev distance
`> view_width + 2`, run the queueing loop, and record the player chunk. -/
def spawnPass (w : ℤ) (pc : IVec3) (s : SchedState) : SchedState :=
  if s.lastChunk = some pc then s
  else
    let s1 : SchedState :=
      { entities := s.entities.filter (fun e => decide (chebH e.1 pc ≤ w + 2)),
        pending := s.pending,
        lastChunk := s.lastChunk }
    let s2 := (reqTriples w).foldl (reqStep pc) s1
    { s2 with lastChunk := some pc }

/-- One run of the `process_chunk_tasks` system (`world.rs` lines 261-292):
`done` is the set of coordinates whose background task has finished this tick;
each finished task's mesh is spawned as an entity recorded in the resident map
and its entry leaves the pending map. -/
def processTasks (done : List IVec3) (s : SchedState) : SchedState :=
  let fin := s.pending.filter (fun e => decide (e.1 ∈ done))
  { entities := fin.foldl (fun m e => minsert e.1 e.2 m) s.entities,
    pending := s.pending.filter (fun e => decide (e.1 ∉ done)),
    lastChunk := s.lastChunk }

/-! ### Association-map lemmas -/

theorem mlookup_nil (k : IVec3) : mlookup k [] = none := rfl

theorem mlookup_mremove_ne {c k : IVec3} (m : List (IVec3 × ℕ)) (h : c ≠ k) :
    mlookup c (mremove k m) = mlookup c m := by
  induction m with
  | nil => rfl
  | cons e r ih =>
    by_cases he : e.1 = k
    · have hec : ¬ e.1 = c := fun hc => h (hc ▸ he)
      simp [mremove, he, mlookup, hec, ih, Ne.symm h]
    · simp [mremove, he, mlookup, ih]

theorem mlookup_mremove_self (k : IVec3) (m : List (IVec3 × ℕ)) :
    mlookup k (mremove k m) = none := by
  induction m with
  | nil => rfl
  | cons e r ih =>
    by_cases he : e.1 = k
    · simp [mremove, he, ih]
    · simp [mremove, he, mlookup, ih]

theorem mlookup_minsert_self (k : IVec3) (v : ℕ) (m : List (IVec3 × ℕ)) :
    mlookup k (minsert k v m) = some v := by
  simp [minsert, mlookup]

theorem mlookup_minsert_ne {c k : IVec3} (v : ℕ) (m : List (IVec3 × ℕ)) (h : c ≠ k) :
    mlookup c (minsert k v m) = mlookup c m := by
  have hkc : ¬ k = c := fun hk => h hk.symm
  simp [minsert, mlookup, hkc, mlookup_mremove_ne m h]

theorem mremove_of_lookup_none {k : IVec3} {m : List (IVec3 × ℕ)}
    (h : mlookup k m = none) : mremove k m = m := by
  induction m with
  | nil => rfl
  | cons e r ih =>
    by_cases he : e.1 = k
    · simp [mlookup, he] at h
    · simp [mlookup, he] at h
      simp [mremove, he, ih h]

theorem mlookup_filter_key {c : IVec3} (p : IVec3 → Bool) (m : List (IVec3 × ℕ))
    (hp : p c = true) :
    mlookup c (m.filter (fun e => p e.1)) = mlookup c m := by
  induction m with
  | nil => rfl
  | cons e r ih =>
    by_cases hec : e.1 = c
    · subst hec
      simp [List.filter_cons, hp, mlookup, ih]
    · by_cases hpe : p e.1
      · simp [List.filter_cons, hpe, mlookup, hec, ih]
      · simp [List.filter_cons, hpe, mlookup, hec, ih]

/-! ### Range and product lemmas -/

theorem mem_intRange {lo hi a : ℤ} : a ∈ intRange lo hi ↔ lo ≤ a ∧ a ≤ hi := by
  simp only [intRange, List.mem_map, List.mem_range]
  constructor
  · rintro ⟨k, hk, rfl⟩
    omega
  · rintro ⟨h1, h2⟩
    refine ⟨(a - lo).toNat, by omega, by omega⟩

theorem nodup_intRange (lo hi : ℤ) : (intRange lo hi).Nodup :=
  List.Nodup.map (fun a b h => by omega) (List.nodup_range _)

theorem length_intRange (lo hi : ℤ) : (intRange lo hi).length = (hi + 1 - lo).toNat := by
  rw [intRange, List.length_map, List.length_range]

theorem mem_listProd {α β : Type} {as : List α} {bs : List β} {p : α × β} :
    p ∈ listProd as bs ↔ p.1 ∈ as ∧ p.2 ∈ bs := by
  induction as with
  | nil => simp [listProd]
  | cons a r ih =>
    obtain ⟨p1, p2⟩ := p
    simp only [listProd, List.mem_append, List.mem_map, ih, List.mem_cons, Prod.mk.injEq]
    constructor
    · rintro (⟨b, hb, rfl, rfl⟩ | ⟨h1, h2⟩)
      · exact ⟨Or.inl rfl, hb⟩
      · exact ⟨Or.inr h1, h2⟩
    · rintro ⟨rfl | h1, h2⟩
      · exact Or.inl ⟨p2, h2, rfl, rfl⟩
      · exact Or.inr ⟨h1, h2⟩

theorem length_listProd {α β : Type} (as : List α) (bs : List β) :
    (listProd as bs).length = as.length * bs.length := by
  induction as with
  | nil => simp [listProd]
  | cons a r ih => simp [listProd, ih]; ring

theorem nodup_listProd {α β : Type} {as : List α} {bs : List β}
    (ha : as.Nodup) (hb : bs.Nodup) : (listProd as bs).Nodup := by
  induction as with
  | nil => simp [listProd]
  | cons a r ih =>
    simp only [List.nodup_cons] at ha
    refine List.Nodup.append (hb.map (fun x y h => by simpa using h)) (ih ha.2) ?_
    intro p hp1 hp2
    simp only [List.mem_map] at hp1
    obtain ⟨b, _, rfl⟩ := hp1
    exact ha.1 (mem_listProd.mp hp2).1

theorem coordOf_injective (pc : IVec3) : Function.Injective (coordOf pc) := by
  rintro ⟨⟨x, z⟩, y⟩ ⟨⟨x', z'⟩, y'⟩ h
  simp only [coordOf, IVec3.mk.injEq] at h
  obtain ⟨h1, h2, h3⟩ := h
  simp only [Prod.mk.injEq]
  omega

theorem mem_reqTriples {w x z y : ℤ} :
    ((x, z), y) ∈ reqTriples w ↔
      (-w ≤ x ∧ x ≤ w) ∧ (-w ≤ z ∧ z ≤ w) ∧ (0 ≤ y ∧ y ≤ 7) := by
  have h8 : MAX_CHUNKS_Y - 1 = 7 := by decide
  simp only [reqTriples, mem_listProd, mem_intRange, h8]
  tauto

theorem nodup_reqTriples (w : ℤ) : (reqTriples w).Nodup :=
  nodup_listProd (nodup_listProd (nodup_intRange _ _) (nodup_intRange _ _)) (nodup_intRange _ _)

theorem reqTriples_coords_nodup (w : ℤ) (pc : IVec3) :
    ((reqTriples w).map (coordOf pc)).Nodup :=
  (nodup_reqTriples w).map (coordOf_injective pc)

/-! ### The queueing loop, coordinate by coordinate -/

/-- The combined effect of the body of the queueing loop on the resident-map
and pending-map entries of the coordinate it handles. -/
def localStep (rl : ℕ) : Option ℕ → Option ℕ → Option ℕ × Option ℕ
  | some l, p => if l = rl then (some l, p) else (none, some rl)
  | none, _ => (none, some rl)

theorem reqStep_lookup_self (pc : IVec3) (st : SchedState) (t : (ℤ × ℤ) × ℤ) :
    (mlookup (coordOf pc t) (reqStep pc st t).entities,
     mlookup (coordOf pc t) (reqStep pc st t).pending)
    = localStep (reqLod t.1.1 t.1.2)
        (mlookup (coordOf pc t) st.entities) (mlookup (coordOf pc t) st.pending) := by
  set c := coordOf pc t
  set rl := reqLod t.1.1 t.1.2
  have hpend : ∀ st' : SchedState,
      mlookup c (pendPhase c rl st').entities = mlookup c st'.entities ∧
      mlookup c (pendPhase c rl st').pending = some rl := by
    intro st'
    unfold pendPhase
    rcases hp : mlookup c st'.pending with _ | l
    · simp [mlookup_minsert_self]
    · by_cases hl : l = rl
      · simp [hl, hp]
      · simp [hl, mlookup_minsert_self]
  unfold reqStep
  rcases he : mlookup c st.entities with _ | l
  · rcases hpend st with ⟨h1, h2⟩
    simp only [h1, h2, he, localStep]
  · by_cases hl : l = rl
    · simp [he, hl, localStep]
    · rcases hpend { st with entities := mremove c st.entities } with ⟨h1, h2⟩
      simp only [he, hl, if_false, localStep, h1, h2]
      simp [mlookup_mremove_self]

theorem reqStep_lookup_ne {c : IVec3} (pc : IVec3) (st : SchedState)
    (t : (ℤ × ℤ) × ℤ) (h : c ≠ coordOf pc t) :
    mlookup c (reqStep pc st t).entities = mlookup c st.entities ∧
    mlookup c (reqStep pc st t).pending = mlookup c st.pending := by
  have hpend : ∀ st' : SchedState,
      mlookup c (pendPhase (coordOf pc t) (reqLod t.1.1 t.1.2) st').entities
          = mlookup c st'.entities ∧
      mlookup c (pendPhase (coordOf pc t) (reqLod t.1.1 t.1.2) st').pending
          = mlookup c st'.pending := by
    intro st'
    unfold pendPhase
    rcases hp : mlookup (coordOf pc t) st'.pending with _ | l
    · simp [mlookup_minsert_ne _ _ h]
    · by_cases hl : l = reqLod t.1.1 t.1.2
      · simp [hl, hp]
      · simp [hl, mlookup_minsert_ne _ _ h, mlookup_mremove_ne _ h]
  unfold reqStep
  rcases he : mlookup (coordOf pc t) st.entities with _ | l
  · simp only [he]
    exact hpend st
  · simp only [he]
    by_cases hl : l = reqLod t.1.1 t.1.2
    · simp [hl]
    · rcases hpend { st with entities := mremove (coordOf pc t) st.entities } with ⟨h1, h2⟩
      simp only [hl, if_false, h1, h2]
      exact ⟨mlookup_mremove_ne _ h, trivial⟩

theorem reqFold_lookup_ne {c : IVec3} (pc : IVec3) (L : List ((ℤ × ℤ) × ℤ))
    (st : SchedState) (h : c ∉ L.map (coordOf pc)) :
    mlookup c ((L.foldl (reqStep pc) st).entities) = mlookup c st.entities ∧
    mlookup c ((L.foldl (reqStep pc) st).pending) = mlookup c st.pending := by
  induction L generalizing st with
  | nil => exact ⟨rfl, rfl⟩
  | cons a L ih =>
    simp only [List.map_cons, List.mem_cons, not_or] at h
    rcases reqStep_lookup_ne pc st a h.1 with ⟨h1, h2⟩
    rcases ih (reqStep pc st a) h.2 with ⟨h3, h4⟩
    exact ⟨h3.trans h1, h4.trans h2⟩

theorem reqFold_lookup_mem (pc : IVec3) (L : List ((ℤ × ℤ) × ℤ))
    (hnd : (L.map (coordOf pc)).Nodup) (st : SchedState)
    (t : (ℤ × ℤ) × ℤ) (ht : t ∈ L) :
    (mlookup (coordOf pc t) ((L.foldl (reqStep pc) st).entities),
     mlookup (coordOf pc t) ((L.foldl (reqStep pc) st).pending))
    = localStep (reqLod t.1.1 t.1.2)
        (mlookup (coordOf pc t) st.entities) (mlookup (coordOf pc t) st.pending) := by
  induction L generalizing st with
  | nil => cases ht
  | cons a L ih =>
    simp only [List.map_cons, List.nodup_cons] at hnd
    rcases List.mem_cons.mp ht with rfl | htl
    · have hnotin : coordOf pc t ∉ L.map (coordOf pc) := hnd.1
      rcases reqFold_lookup_ne pc L (reqStep pc st t) hnotin with ⟨h1, h2⟩
      simp only [List.foldl_cons, h1, h2]
      exact reqStep_lookup_self pc st t
    · have hne : coordOf pc t ≠ coordOf pc a := by
        intro hcc
        exact hnd.1 (hcc ▸ List.mem_map_of_mem (coordOf pc) htl)
      rcases reqStep_lookup_ne pc st a hne with ⟨h1, h2⟩
      simp only [List.foldl_cons]
      rw [ih hnd.2 (reqStep pc st a) htl, h1, h2]

theorem reqStep_entities_subset (pc : IVec3) (st : SchedState) (t : (ℤ × ℤ) × ℤ)
    {e : IVec3 × ℕ} (h : e ∈ (reqStep pc st t).entities) : e ∈ st.entities := by
  have hrem : ∀ m : List (IVec3 × ℕ), e ∈ mremove (coordOf pc t) m → e ∈ m := by
    intro m
    induction m with
    | nil => exact fun h => h
    | cons a r ih =>
      by_cases ha : a.1 = coordOf pc t
      · intro hm
        simp only [mremove, ha, if_true] at hm
        exact List.mem_cons_of_mem a (ih hm)
      · intro hm
        simp only [mremove, ha, if_false] at hm
        rcases List.mem_cons.mp hm with rfl | hm
        · exact List.mem_cons_self _ _
        · exact List.mem_cons_of_mem a (ih hm)
  have hpend : ∀ st' : SchedState,
      (pendPhase (coordOf pc t) (reqLod t.1.1 t.1.2) st').entities = st'.entities := by
    intro st'
    unfold pendPhase
    rcases mlookup (coordOf pc t) st'.pending with _ | l
    · rfl
    · by_cases hl : l = reqLod t.1.1 t.1.2 <;> simp [hl]
  revert h
  unfold reqStep
  rcases he : mlookup (coordOf pc t) st.entities with _ | l
  · simp only [he, hpend st]
    exact fun h => h
  · simp only [he]
    by_cases hl : l = reqLod t.1.1 t.1.2
    · simp only [hl, if_true]
      exact fun h => h
    · simp only [hl, if_false,
        hpend { st with entities := mremove (coordOf pc t) st.entities }]
      exact hrem st.entities

theorem reqFold_entities_subset (pc : IVec3) (L : List ((ℤ × ℤ) × ℤ))
    (st : SchedState) {e : IVec3 × ℕ}
    (h : e ∈ (L.foldl (reqStep pc) st).entities) : e ∈ st.entities := by
  induction L generalizing st with
  | nil => exact h
  | cons a L ih => exact reqStep_entities_subset pc st a (ih (reqStep pc st a) h)

theorem reqFold_entities_clean (pc : IVec3) (L : List ((ℤ × ℤ) × ℤ))
    (st : SchedState) (h : st.entities = []) :
    (L.foldl (reqStep pc) st).entities = [] := by
  induction L generalizing st with
  | nil => exact h
  | cons a L ih =>
    refine ih (reqStep pc st a) ?_
    unfold reqStep
    rw [h]
    simp only [mlookup_nil]
    unfold pendPhase
    rcases mlookup (coordOf pc a) st.pending with _ | l
    · exact h
    · by_cases hl : l = reqLod a.1.1 a.1.2 <;> simp [hl, h]

theorem reqFold_pending_clean (pc : IVec3) (L : List ((ℤ × ℤ) × ℤ))
    (st : SchedState) (hE : st.entities = [])
    (hnd : (L.map (coordOf pc)).Nodup)
    (hdisj : ∀ t ∈ L, mlookup (coordOf pc t) st.pending = none) :
    (L.foldl (reqStep pc) st).pending
      = (L.reverse.map (fun t => (coordOf pc t, reqLod t.1.1 t.1.2))) ++ st.pending := by
  induction L generalizing st with
  | nil => simp
  | cons a L ih =>
    simp only [List.map_cons, List.nodup_cons] at hnd
    have hstep : reqStep pc st a =
        { st with pending := (coordOf pc a, reqLod a.1.1 a.1.2) :: st.pending } := by
      unfold reqStep
      rw [hE]
      simp only [mlookup_nil]
      unfold pendPhase
      rw [hdisj a (List.mem_cons_self _ _)]
      simp only [minsert, mremove_of_lookup_none (hdisj a (List.mem_cons_self _ _))]
      rw [hE]
    simp only [List.foldl_cons, hstep]
    rw [ih _ (by simpa using hE) hnd.2 ?_]
    · simp
    · intro t htl
      have hne : coordOf pc t ≠ coordOf pc a := by
        intro hcc
        exact hnd.1 (hcc ▸ List.mem_map_of_mem (coordOf pc) htl)
      simp only [mlookup, hne.symm, if_false]
      exact hdisj t (List.mem_cons_of_mem a htl)

theorem mlookup_map_coord (pc : IVec3) (M : List ((ℤ × ℤ) × ℤ))
    (hnd : (M.map (coordOf pc)).Nodup) (t : (ℤ × ℤ) × ℤ) (ht : t ∈ M) :
    mlookup (coordOf pc t)
        (M.map (fun u => (coordOf pc u, reqLod u.1.1 u.1.2)))
      = some (reqLod t.1.1 t.1.2) := by
  induction M with
  | nil => cases ht
  | cons a M ih =>
    simp only [List.map_cons, List.nodup_cons] at hnd
    by_cases hca : coordOf pc a = coordOf pc t
    · have : a = t := coordOf_injective pc hca
      subst this
      simp [mlookup]
    · rcases List.mem_cons.mp ht with rfl | htl
      · exact absurd rfl hca
      · simp only [List.map_cons, mlookup, hca, if_false]
        exact ih hnd.2 htl

/-! ### Claims about the scheduler -/

/-- C1, counterexample: with `view_width = 1`, a first pass at player chunk
`(0,0,0)` makes `(1,0,0)` pending; after the player jumps to chunk `(5,0,0)`,
the next pass leaves `(1,0,0)` in the pending map even though its horizontal
Chebyshev distance `4` exceeds `view_width + 2 = 3` (pending tasks are never
range-evicted), and when its task then completes, `process_chunk_tasks`
promotes it to the resident map rather than discarding it. -/
theorem C1_counterexample :
    mlookup ⟨1, 0, 0⟩ (spawnPass 1 ⟨5, 0, 0⟩ (spawnPass 1 ⟨0, 0, 0⟩ initialSched)).pending
        = some 1 ∧
    chebH ⟨1, 0, 0⟩ ⟨5, 0, 0⟩ = 4 ∧
    ¬ (chebH ⟨1, 0, 0⟩ ⟨5, 0, 0⟩ ≤ 1 + 2) ∧
    mlookup ⟨1, 0, 0⟩ (processTasks [⟨1, 0, 0⟩]
        (spawnPass 1 ⟨5, 0, 0⟩ (spawnPass 1 ⟨0, 0, 0⟩ initialSched))).entities
      = some 1 := by decide

/-- C1, amended: the eviction bound does hold for the resident chunk map:
immediately after a `spawn_required_chunks` pass that actually runs (the
observer's chunk changed), every coordinate in the resident map is within
horizontal Chebyshev distance `view_width + 2` of the observer's chunk.
Pending tasks, in contrast, are not range-evicted (see `C1_counterexample`). -/
theorem C1_amended_theorem (w : ℤ) (pc : IVec3) (s : SchedState)
    (hrun : ¬ s.lastChunk = some pc) :
    ∀ e ∈ (spawnPass w pc s).entities, chebH e.1 pc ≤ w + 2 := by
  intro e he
  rw [spawnPass, if_neg hrun] at he
  simp only at he
  have hmem := reqFold_entities_subset pc (reqTriples w) _ he
  simp only [List.mem_filter] at hmem
  simpa using of_decide_eq_true hmem.2

/-- Witness for `C1_amended_theorem` at `w = 1`, `pc = (0,0,0)`,
starting from the empty scheduler state. -/
theorem C1_witness :
    (¬ initialSched.lastChunk = some ⟨0, 0, 0⟩) ∧
    ∀ e ∈ (spawnPass 1 ⟨0, 0, 0⟩ initialSched).entities, chebH e.1 ⟨0, 0, 0⟩ ≤ 1 + 2 :=
  ⟨by decide, C1_amended_theorem 1 ⟨0, 0, 0⟩ initialSched (by decide)⟩

theorem pending_withLast (s : SchedState) (c : Option IVec3) :
    ({ s with lastChunk := c }).pending = s.pending := rfl

theorem entities_withLast (s : SchedState) (c : Option IVec3) :
    ({ s with lastChunk := c }).entities = s.entities := rfl

theorem reqStep_noop (pc : IVec3) (st : SchedState) (t : (ℤ × ℤ) × ℤ)
    (hE : st.entities = [])
    (hP : mlookup (coordOf pc t) st.pending = some (reqLod t.1.1 t.1.2)) :
    reqStep pc st t = st := by
  unfold reqStep
  rw [hE]
  simp only [mlookup_nil]
  unfold pendPhase
  rw [hP]
  simp

/-- C4: the first scheduling pass with `view_width = 4` and the observer at the
origin creates exactly `(2*4+1)^2 * MAX_CHUNKS_Y = 648` pending tasks with
pairwise distinct coordinates (exactly the coordinates of the required ring),
and re-running the per-coordinate request body on any required coordinate a
second time within the same tick leaves the state unchanged — one pending task
per coordinate, never two. -/
theorem C4_first_pass :
    (spawnPass 4 ⟨0, 0, 0⟩ initialSched).pending.length = 648 ∧
    ((spawnPass 4 ⟨0, 0, 0⟩ initialSched).pending.map Prod.fst).Nodup ∧
    (∀ c : IVec3,
      c ∈ (spawnPass 4 ⟨0, 0, 0⟩ initialSched).pending.map Prod.fst ↔
        (-4 ≤ c.x ∧ c.x ≤ 4) ∧ (0 ≤ c.y ∧ c.y ≤ 7) ∧ (-4 ≤ c.z ∧ c.z ≤ 4)) ∧
    (∀ t ∈ reqTriples 4,
      reqStep ⟨0, 0, 0⟩ (spawnPass 4 ⟨0, 0, 0⟩ initialSched) t
        = spawnPass 4 ⟨0, 0, 0⟩ initialSched) := by
  have hpc : ¬ initialSched.lastChunk = some ⟨0, 0, 0⟩ := by decide
  have hpass : spawnPass 4 ⟨0, 0, 0⟩ initialSched =
      { (reqTriples 4).foldl (reqStep ⟨0, 0, 0⟩) initialSched with
          lastChunk := some ⟨0, 0, 0⟩ } := by
    rw [spawnPass, if_neg hpc]
    rfl
  have hE : ((reqTriples 4).foldl (reqStep ⟨0, 0, 0⟩) initialSched).entities = [] :=
    reqFold_entities_clean _ _ _ rfl
  have hP : ((reqTriples 4).foldl (reqStep ⟨0, 0, 0⟩) initialSched).pending
      = (reqTriples 4).reverse.map (fun t => (coordOf ⟨0, 0, 0⟩ t, reqLod t.1.1 t.1.2))
        ++ [] :=
    reqFold_pending_clean _ _ _ rfl (reqTriples_coords_nodup 4 _) (fun _ _ => rfl)
  have hlen : (reqTriples 4).length = 648 := by
    rw [reqTriples, length_listProd, length_listProd, length_intRange, length_intRange]
    decide
  have hrevnd : (((reqTriples 4).reverse).map (coordOf ⟨0, 0, 0⟩)).Nodup := by
    rw [List.map_reverse]
    exact (List.nodup_reverse).mpr (reqTriples_coords_nodup 4 _)
  have hpend : (spawnPass 4 ⟨0, 0, 0⟩ initialSched).pending
      = (reqTriples 4).reverse.map
          (fun t => (coordOf ⟨0, 0, 0⟩ t, reqLod t.1.1 t.1.2)) := by
    rw [hpass, pending_withLast, hP, List.append_nil]
  have hent : (spawnPass 4 ⟨0, 0, 0⟩ initialSched).entities = [] := by
    rw [hpass, entities_withLast]
    exact hE
  have hcomp : (Prod.fst ∘ fun t : (ℤ × ℤ) × ℤ =>
      (coordOf ⟨0, 0, 0⟩ t, reqLod t.1.1 t.1.2)) = coordOf ⟨0, 0, 0⟩ := rfl
  refine ⟨?_, ?_, ?_, ?_⟩
  · rw [hpend, List.length_map, List.length_reverse, hlen]
  · rw [hpend, List.map_map, hcomp]
    exact hrevnd
  · rintro ⟨cx, cy, cz⟩
    dsimp only
    rw [hpend, List.map_map, hcomp, List.map_reverse, List.mem_reverse]
    constructor
    · intro hc
      rcases List.mem_map.mp hc with ⟨⟨⟨tx, tz⟩, ty⟩, ht, heq⟩
      have hm := mem_reqTriples.mp ht
      simp only [coordOf, IVec3.mk.injEq] at heq
      omega
    · intro hr
      refine List.mem_map.mpr ⟨((cx, cz), cy), mem_reqTriples.mpr (by omega), ?_⟩
      simp [coordOf]
  · intro t ht
    refine reqStep_noop _ _ _ hent ?_
    rw [hpend]
    exact mlookup_map_coord _ _ hrevnd t (List.mem_reverse.mpr ht)

/-- C5: for every coordinate of the required set, the requested LOD is the
step function of horizontal Chebyshev chunk distance from the observer's chunk
(`≤ 6` requests LOD 1, farther requests LOD 2), and after the scheduling pass
the coordinate is resident at exactly that LOD (already-correct resident kept)
or pending at exactly that LOD (stale resident or stale pending entries having
been removed and replaced by a request at the required LOD). -/
theorem C5_lod_step (w : ℤ) (pc : IVec3) (s : SchedState) (x z y : ℤ)
    (hrun : ¬ s.lastChunk = some pc)
    (hx : -w ≤ x ∧ x ≤ w) (hz : -w ≤ z ∧ z ≤ w) (hy : 0 ≤ y ∧ y ≤ 7)
    (hdisj : mlookup ⟨pc.x + x, y, pc.z + z⟩ s.entities = none ∨
             mlookup ⟨pc.x + x, y, pc.z + z⟩ s.pending = none) :
    (mlookup ⟨pc.x + x, y, pc.z + z⟩ (spawnPass w pc s).entities
        = some (if chebH ⟨pc.x + x, y, pc.z + z⟩ pc ≤ 6 then 1 else 2) ∧
     mlookup ⟨pc.x + x, y, pc.z + z⟩ (spawnPass w pc s).pending = none) ∨
    (mlookup ⟨pc.x + x, y, pc.z + z⟩ (spawnPass w pc s).entities = none ∧
     mlookup ⟨pc.x + x, y, pc.z + z⟩ (spawnPass w pc s).pending
        = some (if chebH ⟨pc.x + x, y, pc.z + z⟩ pc ≤ 6 then 1 else 2)) := by
  have hcheb : chebH ⟨pc.x + x, y, pc.z + z⟩ pc = max |x| |z| := by
    simp only [chebH]
    ring_nf
  have hc : (⟨pc.x + x, y, pc.z + z⟩ : IVec3) = coordOf pc ((x, z), y) := rfl
  have hlod : (if chebH ⟨pc.x + x, y, pc.z + z⟩ pc ≤ 6 then 1 else 2) = reqLod x z := by
    rw [hcheb, reqLod]
  have ht : ((x, z), y) ∈ reqTriples w := mem_reqTriples.mpr ⟨hx, hz, hy⟩
  have hw : 0 ≤ w := by omega
  rw [spawnPass, if_neg hrun]
  simp only
  set s1 : SchedState :=
    { entities := s.entities.filter (fun e => decide (chebH e.1 pc ≤ w + 2)),
      pending := s.pending,
      lastChunk := s.lastChunk } with hs1
  have hmain := reqFold_lookup_mem pc (reqTriples w) (reqTriples_coords_nodup w pc)
    s1 ((x, z), y) ht
  have hfe : mlookup (coordOf pc ((x, z), y)) s1.entities
      = mlookup (coordOf pc ((x, z), y)) s.entities := by
    refine mlookup_filter_key (fun k => decide (chebH k pc ≤ w + 2)) s.entities ?_
    refine decide_eq_true ?_
    rw [← hc, hcheb]
    have h1 : |x| ≤ w := abs_le.mpr hx
    have h2 : |z| ≤ w := abs_le.mpr hz
    exact le_trans (max_le h1 h2) (by omega)
  have hfp : s1.pending = s.pending := rfl
  rw [Prod.ext_iff] at hmain
  rcases hmain with ⟨hme, hmp⟩
  simp only at hme hmp
  rw [hfe, hfp] at hme hmp
  rw [hlod, hc]
  rcases he : mlookup (coordOf pc ((x, z), y)) s.entities with _ | l
  · rw [he] at hme hmp
    simp only [localStep] at hme hmp
    exact Or.inr ⟨hme, hmp⟩
  · have hpnone : mlookup (coordOf pc ((x, z), y)) s.pending = none := by
      rcases hdisj with hd | hd
      · rw [hc] at hd
        rw [hd] at he
        cases he
      · rwa [hc] at hd
    rw [he, hpnone] at hme hmp
    by_cases hl : l = reqLod x z
    · subst hl
      simp only [localStep, if_true] at hme hmp
      exact Or.inl ⟨by simpa using hme, by simpa using hmp⟩
    · simp only [localStep, hl, if_false] at hme hmp
      exact Or.inr ⟨hme, hmp⟩

/-- Witness for `C5_lod_step` at `w = 1`, `pc = (0,0,0)`, `x = z = y = 0`,
from the empty scheduler state. -/
theorem C5_witness :
    ((¬ initialSched.lastChunk = some ⟨0, 0, 0⟩) ∧
      mlookup ⟨0 + 0, 0, 0 + 0⟩ initialSched.entities = none) ∧
    ((mlookup ⟨0 + 0, 0, 0 + 0⟩ (spawnPass 1 ⟨0, 0, 0⟩ initialSched).entities
        = some (if chebH ⟨0 + 0, 0, 0 + 0⟩ ⟨0, 0, 0⟩ ≤ 6 then 1 else 2) ∧
      mlookup ⟨0 + 0, 0, 0 + 0⟩ (spawnPass 1 ⟨0, 0, 0⟩ initialSched).pending = none) ∨
     (mlookup ⟨0 + 0, 0, 0 + 0⟩ (spawnPass 1 ⟨0, 0, 0⟩ initialSched).entities = none ∧
      mlookup ⟨0 + 0, 0, 0 + 0⟩ (spawnPass 1 ⟨0, 0, 0⟩ initialSched).pending
        = some (if chebH ⟨0 + 0, 0, 0 + 0⟩ ⟨0, 0, 0⟩ ≤ 6 then 1 else 2))) :=
  ⟨⟨by decide, rfl⟩,
    C5_lod_step 1 ⟨0, 0, 0⟩ initialSched 0 0 0 (by decide)
      (by constructor <;> decide) (by constructor <;> decide)
      (by constructor <;> decide) (Or.inl rfl)⟩

/-! ### Chunk generation (`build_mesh`, `world.rs` lines 369-609)

The `FastNoiseLite` samplers of `NoiseResources` are embedded as abstract
rational-valued functions of the integer coordinates at which `build_mesh`
samples them (the code only ever calls `get_noise_2d`/`get_noise_3d` at
integer-valued `f32` arguments; for `boulder_shape`, which is sampled at
`v as f32 * 0.3`, the embedded sampler takes the integer triple before the
fixed `0.3` scale). -/

/-- Block types (`world.rs` `enum BlockType`). -/
inductive BlockType where
  | Empty
  | Grass
  | Dirt
  | Stone
  | Wood
  | Leaf
deriving DecidableEq, Repr

/-- `world.rs` `const EMPTY: BlockType = BlockType::Empty`. -/
def EMPTY : BlockType := BlockType.Empty

/-- `world.rs` `const GRASS: BlockType = BlockType::Grass`. -/
def GRASS : BlockType := BlockType.Grass

/-- `world.rs` `const DIRT: BlockType = BlockType::Dirt`. -/
def DIRT : BlockType := BlockType.Dirt

/-- `world.rs` `const STONE: BlockType = BlockType::Stone`. -/
def STONE : BlockType := BlockType.Stone

/-- `world.rs` `const WOOD: BlockType = BlockType::Wood`. -/
def WOOD : BlockType := BlockType.Wood

/-- `world.rs` `const LEAF: BlockType = BlockType::Leaf`. -/
def LEAF : BlockType := BlockType.Leaf

/-- The noise samplers built by `NoiseResources::from_settings`, embedded as
pure rational-valued fields (amplitude paired with each terrain layer). -/
structure NoiseRes where
  layers : List ((ℤ → ℤ → ℚ) × ℚ)
  cave : ℤ → ℤ → ℤ → ℚ
  cliff : ℤ → ℤ → ℚ
  boulderDensity : ℤ → ℤ → ℚ
  boulderScatter : ℤ → ℤ → ℚ
  boulderShape : ℤ → ℤ → ℤ → ℚ
  treeDensity : ℤ → ℤ → ℚ
  treeScatter : ℤ → ℤ → ℚ

/-- Rust `f32 as i32`: truncation toward zero. -/
def truncQ (q : ℚ) : ℤ := if 0 ≤ q then ⌊q⌋ else ⌈q⌉

/-- Rust `i32::clamp(self, lo, hi)`. -/
def clampZ (v lo hi : ℤ) : ℤ := max lo (min v hi)

/-- Rust `i32::MIN`, the initial per-column occupancy value. -/
def intMin : ℤ := -(2 ^ 31)

/-- `ConstShape3u32::<N, N, N>::linearize([x, y, z]) = x + N*y + N*N*z`
(the row-major linearization of the `block_mesh` shape used for the grid). -/
def linearize (n x y z : ℕ) : ℕ := x + n * y + n * n * z

/-- The world coordinate of local padded index `i` along an axis
(`world.rs` line 419/456: `coord.a * CHUNK_SIZE + ((i as i32 - 1) * lod as i32)`). -/
def worldCoord (c : ℤ) (lod : ℕ) (i : ℕ) : ℤ := c * CHUNK_SIZE + ((i : ℤ) - 1) * (lod : ℤ)

/-- Terrain height of a column (`world.rs` lines 422-443): base 40, first layer
remapped to `[0,1]` times its amplitude, remaining layers signed, plus the
ridge contribution `(|cliff| * 20.0) as i32`, clamped to `[1, MAX_HEIGHT-1]`. -/
def columnHeight (res : NoiseRes) (wx wz : ℤ) : ℤ :=
  let h : ℤ :=
    match res.layers with
    | [] => 40
    | (f, amp) :: rest =>
        let v := (f wx wz + 1) / 2
        rest.foldl (fun acc fa => acc + truncQ (fa.1 wx wz * fa.2)) (40 + truncQ (v * amp))
  let ridge := |res.cliff wx wz|
  clampZ (h + truncQ (ridge * 20)) 1 (MAX_HEIGHT - 1)

/-- The `for offset in (0..lod).rev()` sampling loop of one cell
(`world.rs` lines 462-491), with `b` the running `block` value; the loop
breaks as soon as a solid sample (or the disabled below-`-0.8` cave-ceiling
branch) is hit. -/
def offsetScan (res : NoiseRes) (wx wz height maxY wy : ℤ) :
    List ℕ → BlockType → BlockType
  | [], b => b
  | o :: rest, b =>
    let sy := wy + (o : ℤ)
    if maxY < sy then offsetScan res wx wz height maxY wy rest b
    else
      let nv := res.cave wx sy wz
      if sy ≤ height then
        if 4/5 < nv then offsetScan res wx wz height maxY wy rest b
        else if sy = height then GRASS
        else if sy = height - 1 then DIRT
        else STONE
      else if nv < -(4/5) then b
      else offsetScan res wx wz height maxY wy rest b

/-- The block computed for the cell at world height `wy`
(`world.rs` lines 461-491): offsets `lod-1, ..., 0`, starting from `EMPTY`. -/
def cellBlock (res : NoiseRes) (wx wz height maxY : ℤ) (lod : ℕ) (wy : ℤ) : BlockType :=
  offsetScan res wx wz height maxY wy (List.range lod).reverse EMPTY

/-- Generation state: the padded voxel grid (by linear index) and the
per-column occupancy heights. -/
structure GenState where
  voxels : ℕ → BlockType
  occ : ℕ → ℤ

/-- The initial generation state (`vec![EMPTY; N*N*N]`, `vec![i32::MIN; size*size]`). -/
def initGen : GenState := ⟨fun _ => EMPTY, fun _ => intMin⟩

/-- The local padded-grid index of a world coordinate
(`world.rs` line 384: `((w - coord.a * CHUNK_SIZE) / lod as i32) + 1`,
with Rust `i32` division truncating toward zero). -/
def localIx (c : ℤ) (lod : ℕ) (w : ℤ) : ℤ :=
  Int.tdiv (w - c * CHUNK_SIZE) (lod : ℤ) + 1

/-- The in-range check of `set_block` (`world.rs` lines 387-393): all three
local indices within `[0, size + 1]`. -/
def setBlockGuard (n : ℕ) (lx ly lz : ℤ) : Prop :=
  0 ≤ lx ∧ lx ≤ ((n : ℤ) - 2) + 1 ∧ 0 ≤ ly ∧ ly ≤ ((n : ℤ) - 2) + 1 ∧
  0 ≤ lz ∧ lz ≤ ((n : ℤ) - 2) + 1

instance (n : ℕ) (lx ly lz : ℤ) : Decidable (setBlockGuard n lx ly lz) := by
  unfold setBlockGuard
  infer_instance

/-- The `set_block` closure (`world.rs` lines 378-407): converts a world voxel
to local padded-grid indices, silently drops out-of-range targets, writes the
block, and raises the column occupancy for solid blocks. -/
def setBlockG (n : ℕ) (coord : IVec3) (lod : ℕ) (st : GenState)
    (wx wy wz : ℤ) (block : BlockType) : GenState :=
  let size : ℤ := (n : ℤ) - 2
  let lx := localIx coord.x lod wx
  let ly := localIx coord.y lod wy
  let lz := localIx coord.z lod wz
  if setBlockGuard n lx ly lz then
    let idx := linearize n lx.toNat ly.toNat lz.toNat
    let vox2 := fun i => if i = idx then block else st.voxels i
    let occ2 :=
      if block ≠ EMPTY then
        let ox := lx - 1
        let oz := lz - 1
        if 0 ≤ ox ∧ ox < size ∧ 0 ≤ oz ∧ oz < size then
          let oi := (ox + oz * size).toNat
          fun i => if i = oi then max (st.occ oi) wy else st.occ i
        else st.occ
      else st.occ
    { voxels := vox2, occ := occ2 }
  else st

/-- The terrain occupancy update of a column (`world.rs` lines 446-453). -/
def occInit (size : ℕ) (st : GenState) (x z : ℕ) (height : ℤ) : GenState :=
  if 1 ≤ x ∧ x ≤ size ∧ 1 ≤ z ∧ z ≤ size then
    let oi := (x - 1) + (z - 1) * size
    { st with occ := fun i => if i = oi then max (st.occ oi) height else st.occ i }
  else st

/-- One `y` iteration of the vertical fill loop of a column
(`world.rs` lines 455-496): skip the row above `max_y`, otherwise write the
sampled block when it is solid. -/
def yStep (n : ℕ) (res : NoiseRes) (coord : IVec3) (lod : ℕ) (x z : ℕ)
    (wx wz height maxY : ℤ) (s : GenState) (y : ℕ) : GenState :=
  let wy := worldCoord coord.y lod y
  if maxY < wy then s
  else
    let idx := linearize n x y z
    let b := cellBlock res wx wz height maxY lod wy
    if b ≠ EMPTY then { s with voxels := fun i => if i = idx then b else s.voxels i }
    else s

/-- The vertical fill loop of a column (`world.rs` lines 455-496):
`for y in 1..=size+1`. -/
def yLoopCol (n : ℕ) (res : NoiseRes) (coord : IVec3) (lod : ℕ) (x z : ℕ)
    (wx wz height maxY : ℤ) (st : GenState) : GenState :=
  (List.range' 1 (n - 2 + 1)).foldl (yStep n res coord lod x z wx wz height maxY) st

/-- The boulder-placement gate of a column (`world.rs` line 515:
`b_scatter < b_density * b_density * 0.3`, with both fields remapped to `[0,1]`). -/
def bGate (res : NoiseRes) (wx wz : ℤ) : Prop :=
  (res.boulderScatter wx wz + 1) / 2
    < ((res.boulderDensity wx wz + 1) / 2) * ((res.boulderDensity wx wz + 1) / 2) * (3/10)

instance (res : NoiseRes) (wx wz : ℤ) : Decidable (bGate res wx wz) := by
  unfold bGate
  infer_instance

/-- The tree-placement gate of a column (`world.rs` line 547:
`t_scatter < t_density * t_density * 0.5`). -/
def tGate (res : NoiseRes) (wx wz : ℤ) : Prop :=
  (res.treeScatter wx wz + 1) / 2
    < ((res.treeDensity wx wz + 1) / 2) * ((res.treeDensity wx wz + 1) / 2) * (1/2)

instance (res : NoiseRes) (wx wz : ℤ) : Decidable (tGate res wx wz) := by
  unfold tGate
  infer_instance

/-- Boulder stamping (`world.rs` lines 516-546): radius from a shifted scatter
sample, then a sphere perturbed by the 3D shape noise, written with `set_block`. -/
def boulderPlace (n : ℕ) (res : NoiseRes) (coord : IVec3) (lod : ℕ)
    (wx wz height : ℤ) (st : GenState) : GenState :=
  let variant := (res.boulderScatter (wx + 2000) (wz + 2000) + 1) / 2
  let radius := 1 + truncQ (variant * 3)
  (intRange 0 radius).foldl
    (fun s1 by_ =>
      (intRange (-radius) radius).foldl
        (fun s2 bx =>
          (intRange (-radius) radius).foldl
            (fun s3 bz =>
              let shp := (res.boulderShape (wx + bx) (height + by_) (wz + bz) + 1) / 2
              let r := (radius : ℚ) * (7/10 + shp * (3/5))
              if ((bx * bx + by_ * by_ + bz * bz : ℤ) : ℚ) ≤ r * r then
                setBlockG n coord lod s3 (wx + bx) (height + by_) (wz + bz) STONE
              else s3)
            s2)
        s1)
    st

/-- Tree stamping (`world.rs` lines 548-606): trunk size/height and canopy
radius from a shifted scatter sample, an occupancy collision check over the
trunk footprint, then trunk and spherical canopy written with `set_block`. -/
def treePlace (n : ℕ) (res : NoiseRes) (coord : IVec3) (lod : ℕ)
    (wx wz height : ℤ) (st : GenState) : GenState :=
  let variant := (res.treeScatter (wx + 1000) (wz + 1000) + 1) / 2
  let trunkSize := ⌊variant * 3⌋ + 1
  let trunkH := 6 + trunkSize * 4 + truncQ (variant * 2)
  let canopy := trunkSize * 2 + 2 + truncQ (variant * 2)
  let size : ℤ := (n : ℤ) - 2
  let colliding :=
    (intRange 0 (trunkSize - 1)).any fun tx =>
      (intRange 0 (trunkSize - 1)).any fun tz =>
        let lx := Int.tdiv ((wx + tx) - coord.x * CHUNK_SIZE) (lod : ℤ)
        let lz := Int.tdiv ((wz + tz) - coord.z * CHUNK_SIZE) (lod : ℤ)
        if 0 ≤ lx ∧ lx < size ∧ 0 ≤ lz ∧ lz < size then
          decide (height < st.occ (lx + lz * size).toNat)
        else false
  if colliding then st
  else
    let st1 :=
      (intRange 1 trunkH).foldl
        (fun s ty =>
          (intRange 0 (trunkSize - 1)).foldl
            (fun s2 tx =>
              (intRange 0 (trunkSize - 1)).foldl
                (fun s3 tz =>
                  setBlockG n coord lod s3 (wx + tx) (height + ty) (wz + tz) WOOD)
                s2)
            s)
        st
    let top := height + trunkH
    (intRange (-canopy) canopy).foldl
      (fun s dx =>
        (intRange (-canopy) canopy).foldl
          (fun s2 dz =>
            (intRange 0 canopy).foldl
              (fun s3 dy =>
                if dx * dx + dz * dz + dy * dy ≤ canopy * canopy then
                  setBlockG n coord lod s3 (wx + dx) (top + dy) (wz + dz) LEAF
                else s3)
              s2)
          s)
      st1

/-- The decoration phase of a column (`world.rs` lines 498-607), run only at
LOD 1: boulders are tried first, then trees. -/
def decorate (n : ℕ) (res : NoiseRes) (coord : IVec3) (lod : ℕ)
    (wx wz height : ℤ) (st : GenState) : GenState :=
  if lod = 1 then
    if bGate res wx wz then boulderPlace n res coord lod wx wz height st
    else if tGate res wx wz then treePlace n res coord lod wx wz height st
    else st
  else st

/-- One column of `build_mesh` (`world.rs` lines 417-608): world coordinates,
height field, occupancy seed, vertical fill, decorations. -/
def fillColumn (n : ℕ) (res : NoiseRes) (coord : IVec3) (lod : ℕ)
    (st : GenState) (zx : ℕ × ℕ) : GenState :=
  let z := zx.1
  let x := zx.2
  let wx := worldCoord coord.x lod x
  let wz := worldCoord coord.z lod z
  let height := columnHeight res wx wz
  let maxY := height + 8
  let st1 := occInit (n - 2) st x z height
  let st2 := yLoopCol n res coord lod x z wx wz height maxY st1
  decorate n res coord lod wx wz height st2

/-- The column iteration order of `build_mesh`
(`for z in 0..=size+1 { for x in 0..=size+1 { ... } }`). -/
def colPairs (size : ℕ) : List (ℕ × ℕ) :=
  listProd (List.range (size + 2)) (List.range (size + 2))

/-- The voxel-grid population phase of `build_mesh::<N>` (`world.rs` lines
369-609); `n` is the const generic `N`, so the padded grid edge is `n` and
`size = n - 2`. -/
def buildVoxels (n : ℕ) (res : NoiseRes) (coord : IVec3) (lod : ℕ) : GenState :=
  (colPairs (n - 2)).foldl (fillColumn n res coord lod) initGen

/-- The value the terrain pass of `build_mesh` computes for the cell with
padded indices `(x, y, z)`: `EMPTY` above `max_y`, otherwise the sampled
block of `cellBlock`. -/
def cellValue (res : NoiseRes) (coord : IVec3) (lod : ℕ) (x y z : ℕ) : BlockType :=
  let wx := worldCoord coord.x lod x
  let wz := worldCoord coord.z lod z
  let h := columnHeight res wx wz
  let maxY := h + 8
  let wy := worldCoord coord.y lod y
  if maxY < wy then EMPTY else cellBlock res wx wz h maxY lod wy

/-! ### Where each column writes -/

theorem linearize_lt {n x y z : ℕ} (hx : x < n) (hy : y < n) (hz : z < n) :
    linearize n x y z < n * n * n := by
  unfold linearize
  nlinarith [hx, hy, hz]

theorem linearize_inj {n x y z x' y' z' : ℕ} (hx : x < n) (hy : y < n) (hz : z < n)
    (hx' : x' < n) (hy' : y' < n) (hz' : z' < n)
    (h : linearize n x y z = linearize n x' y' z') : x = x' ∧ y = y' ∧ z = z' := by
  have repack : ∀ a b c : ℕ, a + n * b + n * n * c = a + n * (b + n * c) := by
    intro a b c
    ring
  unfold linearize at h
  rw [repack, repack] at h
  have hn : 0 < n := Nat.pos_of_ne_zero (by rintro rfl; omega)
  have hxx : x = x' := by
    have t1 : (x + n * (y + n * z)) % n = x := by
      rw [Nat.add_mul_mod_self_left]
      exact Nat.mod_eq_of_lt hx
    have t2 : (x' + n * (y' + n * z')) % n = x' := by
      rw [Nat.add_mul_mod_self_left]
      exact Nat.mod_eq_of_lt hx'
    rw [← t1, ← t2, h]
  subst hxx
  have h2 : y + n * z = y' + n * z' :=
    Nat.eq_of_mul_eq_mul_left hn (Nat.add_left_cancel h)
  have hyy : y = y' := by
    have t1 : (y + n * z) % n = y := by
      rw [Nat.add_mul_mod_self_left]
      exact Nat.mod_eq_of_lt hy
    have t2 : (y' + n * z') % n = y' := by
      rw [Nat.add_mul_mod_self_left]
      exact Nat.mod_eq_of_lt hy'
    rw [← t1, ← t2, h2]
  subst hyy
  exact ⟨rfl, rfl, Nat.eq_of_mul_eq_mul_left hn (Nat.add_left_cancel h2)⟩

theorem yStep_voxels_ne {n : ℕ} {res : NoiseRes} {coord : IVec3} {lod : ℕ}
    {x z : ℕ} {wx wz height maxY : ℤ} {s : GenState} {y : ℕ} {i : ℕ}
    (hi : i ≠ linearize n x y z) :
    (yStep n res coord lod x z wx wz height maxY s y).voxels i = s.voxels i := by
  unfold yStep
  by_cases h1 : maxY < worldCoord coord.y lod y
  · simp [h1]
  · simp only [h1, if_false]
    by_cases h2 : cellBlock res wx wz height maxY lod (worldCoord coord.y lod y) ≠ EMPTY
    · simp [h2, hi]
    · simp [h2]

theorem yFold_voxels_ne (n : ℕ) (res : NoiseRes) (coord : IVec3) (lod : ℕ)
    (x z : ℕ) (wx wz height maxY : ℤ) (L : List ℕ) (st : GenState) {i : ℕ}
    (hi : ∀ y ∈ L, i ≠ linearize n x y z) :
    ((L.foldl (yStep n res coord lod x z wx wz height maxY) st).voxels i)
      = st.voxels i := by
  induction L generalizing st with
  | nil => rfl
  | cons a L ih =>
    rw [List.foldl_cons, ih _ (fun y hy => hi y (List.mem_cons_of_mem a hy)),
      yStep_voxels_ne (hi a (List.mem_cons_self _ _))]

theorem yFold_voxels_at (n : ℕ) (res : NoiseRes) (coord : IVec3) (lod : ℕ)
    (x z : ℕ) (wx wz height maxY : ℤ) (L : List ℕ) (hnd : L.Nodup)
    {y₀ : ℕ} (hmem : y₀ ∈ L) (hbnd : ∀ y ∈ L, y < n)
    (hxn : x < n) (hzn : z < n) (st : GenState) :
    ((L.foldl (yStep n res coord lod x z wx wz height maxY) st).voxels
        (linearize n x y₀ z))
      = if maxY < worldCoord coord.y lod y₀ then st.voxels (linearize n x y₀ z)
        else if cellBlock res wx wz height maxY lod (worldCoord coord.y lod y₀) = EMPTY
          then st.voxels (linearize n x y₀ z)
          else cellBlock res wx wz height maxY lod (worldCoord coord.y lod y₀) := by
  induction L generalizing st with
  | nil => cases hmem
  | cons a L ih =>
    rcases List.nodup_cons.mp hnd with ⟨hna, hndL⟩
    rcases List.mem_cons.mp hmem with rfl | hmemL
    · rw [List.foldl_cons, yFold_voxels_ne]
      · unfold yStep
        by_cases h1 : maxY < worldCoord coord.y lod y₀
        · simp [h1]
        · simp only [h1, if_false, if_neg]
          by_cases h2 : cellBlock res wx wz height maxY lod (worldCoord coord.y lod y₀)
              = EMPTY
          · simp [h2]
          · simp [h2]
      · intro y hy heq
        have hb := linearize_inj hxn (hbnd _ hmem) hzn hxn (hbnd _ (List.mem_cons_of_mem _ hy))
          hzn heq
        exact hna (hb.2.1 ▸ hy)
    · rw [List.foldl_cons, ih hndL hmemL (fun y hy => hbnd y (List.mem_cons_of_mem a hy))]
      have hstep : (yStep n res coord lod x z wx wz height maxY st a).voxels
          (linearize n x y₀ z) = st.voxels (linearize n x y₀ z) := by
        refine yStep_voxels_ne ?_
        intro heq
        have hb := linearize_inj hxn (hbnd _ hmem) hzn hxn (hbnd _ (List.mem_cons_self a L))
          hzn heq
        exact hna (hb.2.1 ▸ hmemL)
      rw [hstep]

theorem occInit_voxels (size : ℕ) (st : GenState) (x z : ℕ) (height : ℤ) :
    (occInit size st x z height).voxels = st.voxels := by
  unfold occInit
  by_cases h : 1 ≤ x ∧ x ≤ size ∧ 1 ≤ z ∧ z ≤ size
  · simp [h]
  · simp [h]

theorem decorate_closed {n : ℕ} {res : NoiseRes} {coord : IVec3} {lod : ℕ}
    {wx wz height : ℤ} {st : GenState}
    (h : lod = 1 → ¬ bGate res wx wz ∧ ¬ tGate res wx wz) :
    decorate n res coord lod wx wz height st = st := by
  unfold decorate
  by_cases hl : lod = 1
  · rcases h hl with ⟨h1, h2⟩
    simp [hl, h1, h2]
  · simp [hl]

/-- A configuration whose decoration gates are closed at every column
(`lod = 1` is the only LOD at which `build_mesh` decorates at all). -/
def gatesClosed (res : NoiseRes) : Prop :=
  ∀ a b : ℤ, ¬ bGate res a b ∧ ¬ tGate res a b

theorem fillColumn_voxels_ne {n : ℕ} {res : NoiseRes} {coord : IVec3} {lod : ℕ}
    (hdec : lod = 1 → gatesClosed res) {z x : ℕ} {st : GenState} {i : ℕ}
    (hi : ∀ y ∈ List.range' 1 (n - 2 + 1), i ≠ linearize n x y z) :
    (fillColumn n res coord lod st (z, x)).voxels i = st.voxels i := by
  unfold fillColumn
  rw [decorate_closed (fun hl => (hdec hl) _ _)]
  rw [yLoopCol, yFold_voxels_ne _ _ _ _ _ _ _ _ _ _ _ _ hi, occInit_voxels]

theorem fillColumn_voxels_at {n : ℕ} {res : NoiseRes} {coord : IVec3} {lod : ℕ}
    (hdec : lod = 1 → gatesClosed res) {z x y : ℕ} (hn : 3 ≤ n)
    (hxn : x < n) (hzn : z < n) (hy1 : 1 ≤ y) (hy2 : y ≤ n - 2 + 1) (st : GenState) :
    (fillColumn n res coord lod st (z, x)).voxels (linearize n x y z)
      = if cellValue res coord lod x y z = EMPTY then st.voxels (linearize n x y z)
        else cellValue res coord lod x y z := by
  unfold fillColumn
  rw [decorate_closed (fun hl => (hdec hl) _ _)]
  rw [yLoopCol, yFold_voxels_at _ _ _ _ _ _ _ _ _ _ _ (List.nodup_range' _ _) ?_ ?_ hxn hzn]
  · rw [occInit_voxels]
    unfold cellValue
    by_cases h1 : columnHeight res (worldCoord coord.x lod x) (worldCoord coord.z lod z) + 8
        < worldCoord coord.y lod y
    · simp [h1]
    · simp [h1]
  · exact List.mem_range'_1.mpr ⟨hy1, by omega⟩
  · intro u hu
    have := List.mem_range'_1.mp hu
    omega

theorem colFold_voxels_ne {n : ℕ} {res : NoiseRes} {coord : IVec3} {lod : ℕ}
    (hdec : lod = 1 → gatesClosed res) (L : List (ℕ × ℕ)) (st : GenState) {i : ℕ}
    (hi : ∀ p ∈ L, ∀ y ∈ List.range' 1 (n - 2 + 1), i ≠ linearize n p.2 y p.1) :
    ((L.foldl (fillColumn n res coord lod) st).voxels i) = st.voxels i := by
  induction L generalizing st with
  | nil => rfl
  | cons p L ih =>
    obtain ⟨pz, px⟩ := p
    rw [List.foldl_cons, ih _ (fun q hq => hi q (List.mem_cons_of_mem _ hq)),
      fillColumn_voxels_ne hdec (hi (pz, px) (List.mem_cons_self _ _))]

theorem colFold_voxels_at {n : ℕ} {res : NoiseRes} {coord : IVec3} {lod : ℕ}
    (hdec : lod = 1 → gatesClosed res) (L : List (ℕ × ℕ)) (hnd : L.Nodup)
    (hLb : ∀ p ∈ L, p.1 < n ∧ p.2 < n) (hn : 3 ≤ n)
    {x y z : ℕ} (hxn : x < n) (hzn : z < n) (hy1 : 1 ≤ y) (hy2 : y ≤ n - 2 + 1)
    (hmem : (z, x) ∈ L) (st : GenState) :
    ((L.foldl (fillColumn n res coord lod) st).voxels (linearize n x y z))
      = if cellValue res coord lod x y z = EMPTY then st.voxels (linearize n x y z)
        else cellValue res coord lod x y z := by
  induction L generalizing st with
  | nil => cases hmem
  | cons p L ih =>
    rcases List.nodup_cons.mp hnd with ⟨hnp, hndL⟩
    rcases List.mem_cons.mp hmem with heq | hmemL
    · subst heq
      rw [List.foldl_cons, colFold_voxels_ne hdec L _ ?_]
      · exact fillColumn_voxels_at hdec hn hxn hzn hy1 hy2 st
      · rintro ⟨qz, qx⟩ hq u hu heq
        have hub : u < n := by
          have := List.mem_range'_1.mp hu
          omega
        have hqb := hLb (qz, qx) (List.mem_cons_of_mem _ hq)
        have hinj := linearize_inj hxn (by omega : y < n) hzn hqb.2 hub hqb.1 heq
        have e1 : x = qx := by simpa using hinj.1
        have e3 : z = qz := by simpa using hinj.2.2
        refine hnp ?_
        rw [e1, e3]
        exact hq
    · obtain ⟨pz, px⟩ := p
      rw [List.foldl_cons, ih hndL (fun q hq => hLb q (List.mem_cons_of_mem _ hq)) hmemL]
      have hframe : (fillColumn n res coord lod st (pz, px)).voxels (linearize n x y z)
          = st.voxels (linearize n x y z) := by
        refine fillColumn_voxels_ne hdec ?_
        intro u hu heq
        have hub : u < n := by
          have := List.mem_range'_1.mp hu
          omega
        have hqb := hLb (pz, px) (List.mem_cons_self _ _)
        have hinj := linearize_inj hxn (by omega : y < n) hzn hqb.2 hub hqb.1 heq
        have e1 : x = px := by simpa using hinj.1
        have e3 : z = pz := by simpa using hinj.2.2
        refine hnp ?_
        rw [← e1, ← e3]
        exact hmemL
      rw [hframe]

theorem buildVoxels_at {n : ℕ} {res : NoiseRes} {coord : IVec3} {lod : ℕ}
    (hdec : lod = 1 → gatesClosed res) (hn : 3 ≤ n)
    {x y z : ℕ} (hxn : x < n) (hzn : z < n) (hy1 : 1 ≤ y) (hy2 : y ≤ n - 2 + 1) :
    (buildVoxels n res coord lod).voxels (linearize n x y z)
      = cellValue res coord lod x y z := by
  unfold buildVoxels
  have hsz : n - 2 + 2 = n := by omega
  have hmem : (z, x) ∈ colPairs (n - 2) := by
    unfold colPairs
    rw [mem_listProd]
    constructor
    · rw [List.mem_range, hsz]
      exact hzn
    · rw [List.mem_range, hsz]
      exact hxn
  have hnd : (colPairs (n - 2)).Nodup :=
    nodup_listProd (List.nodup_range _) (List.nodup_range _)
  have hLb : ∀ p ∈ colPairs (n - 2), p.1 < n ∧ p.2 < n := by
    intro p hp
    rw [colPairs, mem_listProd, List.mem_range, List.mem_range, hsz] at hp
    exact hp
  rw [colFold_voxels_at hdec _ hnd hLb hn hxn hzn hy1 hy2 hmem]
  by_cases h : cellValue res coord lod x y z = EMPTY
  · rw [if_pos h, h]
    rfl
  · rw [if_neg h]

theorem buildVoxels_bottom {n : ℕ} {res : NoiseRes} {coord : IVec3} {lod : ℕ}
    (hdec : lod = 1 → gatesClosed res) (hn : 3 ≤ n) {x z : ℕ}
    (hxn : x < n) (hzn : z < n) :
    (buildVoxels n res coord lod).voxels (linearize n x 0 z) = EMPTY := by
  unfold buildVoxels
  have hsz : n - 2 + 2 = n := by omega
  have hLb : ∀ p ∈ colPairs (n - 2), p.1 < n ∧ p.2 < n := by
    intro p hp
    rw [colPairs, mem_listProd, List.mem_range, List.mem_range, hsz] at hp
    exact hp
  rw [colFold_voxels_ne hdec _ _ ?_]
  · rfl
  · intro p hp u hu heq
    have hub : u < n := by
      have := List.mem_range'_1.mp hu
      omega
    have hqb := hLb p hp
    have hinj := linearize_inj hxn (by omega : 0 < n) hzn hqb.2 hub hqb.1 heq
    have := List.mem_range'_1.mp hu
    omega

/-! ### Claim C2: the flat-terrain scenario -/

theorem truncQ_zero : truncQ 0 = 0 := by
  unfold truncQ
  simp

theorem foldl_amp_zero (wx wz : ℤ) (rest : List ((ℤ → ℤ → ℚ) × ℚ))
    (h : ∀ p ∈ rest, p.2 = 0) (acc : ℤ) :
    rest.foldl (fun acc fa => acc + truncQ (fa.1 wx wz * fa.2)) acc = acc := by
  induction rest generalizing acc with
  | nil => rfl
  | cons a r ih =>
    rw [List.foldl_cons, h a (List.mem_cons_self _ _), mul_zero, truncQ_zero, add_zero]
    exact ih (fun p hp => h p (List.mem_cons_of_mem _ hp)) acc

theorem columnHeight_flat (res : NoiseRes) (wx wz : ℤ)
    (hamp : ∀ p ∈ res.layers, p.2 = 0)
    (hridge : truncQ (|res.cliff wx wz| * 20) = 0) :
    columnHeight res wx wz = 40 := by
  unfold columnHeight
  rcases hL : res.layers with _ | ⟨⟨f, amp⟩, rest⟩
  · simp only [hridge, add_zero]
    decide
  · have hamp0 : amp = 0 := hamp (f, amp) (by rw [hL]; exact List.mem_cons_self _ _)
    simp only [hamp0, mul_zero, truncQ_zero, add_zero]
    rw [foldl_amp_zero wx wz rest
      (fun p hp => hamp p (by rw [hL]; exact List.mem_cons_of_mem _ hp))]
    simp only [hridge, add_zero]
    decide

/-- The cell value of the flat-terrain scenario with base height 40:
`EMPTY` strictly above 40, `GRASS` on the cell whose samples cover height 40,
`DIRT` on the cell whose top sample is 39, `STONE` below. -/
def flatVoxel (lod : ℕ) (wy : ℤ) : BlockType :=
  if 40 < wy then EMPTY
  else if 40 < wy + lod then GRASS
  else if 39 < wy + lod then DIRT
  else STONE

theorem cellBlock_flat (res : NoiseRes) (wx wz wy : ℤ) (lod : ℕ)
    (hcave : ∀ a b c : ℤ, |res.cave a b c| ≤ 4/5)
    (hl : lod = 1 ∨ lod = 2) :
    cellBlock res wx wz 40 48 lod wy = flatVoxel lod wy := by
  have hnc : ∀ a b c : ℤ, ¬((4:ℚ)/5 < res.cave a b c) ∧ ¬(res.cave a b c < -(4/5)) := by
    intro a b c
    have h := abs_le.mp (hcave a b c)
    constructor <;> push_neg <;> linarith [h.1, h.2]
  rcases hl with rfl | rfl
  · have hrange : (List.range 1).reverse = [0] := rfl
    unfold cellBlock
    rw [hrange]
    simp only [offsetScan, Nat.cast_zero, add_zero, Nat.cast_one]
    unfold flatVoxel
    by_cases h48 : (48:ℤ) < wy
    · rw [if_pos h48]
      rw [if_pos (by omega : (40:ℤ) < wy)]
    · rw [if_neg h48]
      by_cases h40 : wy ≤ (40:ℤ)
      · rw [if_pos h40, if_neg (hnc wx wy wz).1]
        by_cases hg : wy = (40:ℤ)
        · rw [if_pos hg, if_neg (by omega), if_pos (by omega)]
        · rw [if_neg hg]
          by_cases hd : wy = (40:ℤ) - 1
          · rw [if_pos hd, if_neg (by omega), if_neg (by omega), if_pos (by omega)]
          · rw [if_neg hd, if_neg (by omega), if_neg (by omega), if_neg (by omega)]
      · rw [if_neg h40, if_neg (hnc wx wy wz).2]
        rw [if_pos (by omega : (40:ℤ) < wy)]
  · have hrange : (List.range 2).reverse = [1, 0] := rfl
    unfold cellBlock
    rw [hrange]
    simp only [offsetScan, Nat.cast_zero, add_zero, Nat.cast_one, Nat.cast_ofNat]
    unfold flatVoxel
    by_cases h48 : (48:ℤ) < wy + 1
    · rw [if_pos h48]
      by_cases h48b : (48:ℤ) < wy
      · rw [if_pos h48b, if_pos (by omega : (40:ℤ) < wy)]
      · rw [if_neg h48b, if_neg (by omega : ¬ wy ≤ (40:ℤ)), if_neg (hnc wx wy wz).2,
          if_pos (by omega : (40:ℤ) < wy)]
    · rw [if_neg h48]
      by_cases h40 : wy + 1 ≤ (40:ℤ)
      · rw [if_pos h40, if_neg (hnc wx (wy + 1) wz).1]
        by_cases hg : wy + 1 = (40:ℤ)
        · rw [if_pos hg, if_neg (by omega), if_pos (by omega)]
        · rw [if_neg hg]
          by_cases hd : wy + 1 = (40:ℤ) - 1
          · rw [if_pos hd, if_neg (by omega), if_neg (by omega), if_pos (by omega)]
          · rw [if_neg hd, if_neg (by omega), if_neg (by omega), if_neg (by omega)]
      · rw [if_neg h40, if_neg (hnc wx (wy + 1) wz).2, if_neg (by omega : ¬ (48:ℤ) < wy)]
        by_cases hg : wy ≤ (40:ℤ)
        · rw [if_pos hg, if_neg (hnc wx wy wz).1, if_pos (by omega : wy = (40:ℤ)),
            if_neg (by omega), if_pos (by omega)]
        · rw [if_neg hg, if_neg (hnc wx wy wz).2, if_pos (by omega : (40:ℤ) < wy)]

/-- A noise configuration with all five terrain-layer amplitudes zero,
constant-zero cave/decoration samplers, and a constant `1/2` cliff sampler. -/
def flatRes : NoiseRes :=
  { layers := List.replicate 5 (fun _ _ => (0:ℚ), (0:ℚ)),
    cave := fun _ _ _ => 0,
    cliff := fun _ _ => 1/2,
    boulderDensity := fun _ _ => 0,
    boulderScatter := fun _ _ => 0,
    boulderShape := fun _ _ _ => 0,
    treeDensity := fun _ _ => 0,
    treeScatter := fun _ _ => 0 }

/-- `flatRes` with the cliff sampler also zero. -/
def zeroRes : NoiseRes := { flatRes with cliff := fun _ _ => 0 }

theorem columnHeight_flatRes (a b : ℤ) : columnHeight flatRes a b = 50 := by
  unfold columnHeight
  have hL : flatRes.layers
      = (fun _ _ => (0:ℚ), (0:ℚ)) :: List.replicate 4 (fun _ _ => (0:ℚ), (0:ℚ)) := rfl
  rw [hL]
  simp only [mul_zero, truncQ_zero, add_zero]
  rw [foldl_amp_zero a b _ (fun p hp => by rw [List.eq_of_mem_replicate hp])]
  have hcliff : flatRes.cliff a b = 1/2 := rfl
  rw [hcliff]
  have h10 : truncQ (|(1:ℚ)/2| * 20) = 10 := by
    have he : |(1:ℚ)/2| * 20 = ((10:ℤ) : ℚ) := by
      rw [abs_of_pos (by norm_num : (0:ℚ) < 1/2)]
      norm_num
    rw [truncQ, he, if_pos (by norm_num)]
    exact Int.floor_intCast 10
  rw [h10]
  decide

/-- C2, counterexample: the claim omits the ridge/cliff contribution, which
is added to the height regardless of the layer amplitudes
(`world.rs` lines 438-442).  With all five layer amplitudes zero but the
cliff sampler constantly `1/2`, the column height is `40 + (0.5*20) = 50`,
so at LOD 2 the cell of chunk `(0,1,0)` at world height 50 is `GRASS` even
though `50 > 40` — the solid region is not `{world-Y ≤ 40}`. -/
theorem C2_counterexample :
    (buildVoxels 19 flatRes ⟨0, 1, 0⟩ 2).voxels (linearize 19 1 10 1) = GRASS ∧
    worldCoord (1 : ℤ) 2 10 = 50 ∧ ¬ ((50:ℤ) ≤ 40) ∧
    (∀ p ∈ flatRes.layers, p.2 = 0) := by
  refine ⟨?_, by decide, by decide, fun p hp => by rw [List.eq_of_mem_replicate hp]⟩
  rw [buildVoxels_at (fun h => absurd h (by decide)) (by norm_num) (by norm_num)
    (by norm_num) (by norm_num) (by norm_num)]
  simp only [cellValue]
  rw [columnHeight_flatRes]
  have hwy : worldCoord (⟨0, 1, 0⟩ : IVec3).y 2 10 = 50 := by decide
  rw [hwy]
  rw [if_neg (by omega)]
  unfold cellBlock
  have hrange : (List.range 2).reverse = [1, 0] := rfl
  rw [hrange]
  have hcave : ∀ a b c : ℤ, flatRes.cave a b c = 0 := fun _ _ _ => rfl
  simp only [offsetScan, hcave, Nat.cast_zero, Nat.cast_one, add_zero]
  norm_num

/-- C2, amended: if additionally the ridge contribution truncates to zero at
every column, the cave sampler stays within `[-0.8, 0.8]` (no carving and no
disabled cave-ceiling break), and the decoration gates are closed, then for
LOD 1 (grid 35) and LOD 2 (grid 19) every populated row `y ≥ 1` of the grid
is exactly the flat profile: solid iff world-Y ≤ 40, `GRASS` on the cell
whose samples reach 40, `DIRT` on the cell whose top sample is 39 (world-Y 39
at LOD 1, 38 at LOD 2), `STONE` below; the bottom padding row `y = 0` is
always `EMPTY`. -/
theorem C2_amended_theorem (res : NoiseRes) (coord : IVec3) (lod n : ℕ)
    (hln : (lod = 1 ∧ n = 35) ∨ (lod = 2 ∧ n = 19))
    (hamp : ∀ p ∈ res.layers, p.2 = 0)
    (hridge : ∀ a b : ℤ, truncQ (|res.cliff a b| * 20) = 0)
    (hcave : ∀ a b c : ℤ, |res.cave a b c| ≤ 4/5)
    (hdec : lod = 1 → gatesClosed res) :
    (∀ x y z : ℕ, x < n → z < n → 1 ≤ y → y ≤ n - 1 →
        (buildVoxels n res coord lod).voxels (linearize n x y z)
          = flatVoxel lod (worldCoord coord.y lod y)) ∧
    (∀ x z : ℕ, x < n → z < n →
        (buildVoxels n res coord lod).voxels (linearize n x 0 z) = EMPTY) ∧
    (∀ wy : ℤ, flatVoxel lod wy = EMPTY ↔ 40 < wy) := by
  have hn3 : 3 ≤ n := by rcases hln with ⟨_, rfl⟩ | ⟨_, rfl⟩ <;> omega
  have hlod12 : lod = 1 ∨ lod = 2 := by
    rcases hln with ⟨h, _⟩ | ⟨h, _⟩
    · exact Or.inl h
    · exact Or.inr h
  refine ⟨?_, ?_, ?_⟩
  · intro x y z hx hz hy1 hy2
    rw [buildVoxels_at hdec hn3 hx hz hy1 (by omega)]
    simp only [cellValue]
    rw [columnHeight_flat res _ _ hamp (hridge _ _)]
    rw [(by norm_num : (40:ℤ) + 8 = 48)]
    rw [cellBlock_flat res _ _ _ _ hcave hlod12]
    by_cases h : (48:ℤ) < worldCoord coord.y lod y
    · rw [if_pos h]
      unfold flatVoxel
      rw [if_pos (by omega)]
    · rw [if_neg h]
  · intro x z hx hz
    exact buildVoxels_bottom hdec hn3 hx hz
  · intro wy
    unfold flatVoxel
    split_ifs with h1 h2 h3
    · simp [h1]
    · exact ⟨fun hh => absurd hh (by decide), fun hh => absurd hh h1⟩
    · exact ⟨fun hh => absurd hh (by decide), fun hh => absurd hh h1⟩
    · exact ⟨fun hh => absurd hh (by decide), fun hh => absurd hh h1⟩

/-- Witness for `C2_amended_theorem` with the all-zero sampler configuration
at LOD 2. -/
theorem C2_witness :
    ((∀ p ∈ zeroRes.layers, p.2 = 0) ∧
     (∀ a b : ℤ, truncQ (|zeroRes.cliff a b| * 20) = 0) ∧
     (∀ a b c : ℤ, |zeroRes.cave a b c| ≤ 4/5)) ∧
    ((∀ x y z : ℕ, x < 19 → z < 19 → 1 ≤ y → y ≤ 19 - 1 →
        (buildVoxels 19 zeroRes ⟨0, 0, 0⟩ 2).voxels (linearize 19 x y z)
          = flatVoxel 2 (worldCoord (0:ℤ) 2 y)) ∧
     (∀ x z : ℕ, x < 19 → z < 19 →
        (buildVoxels 19 zeroRes ⟨0, 0, 0⟩ 2).voxels (linearize 19 x 0 z) = EMPTY) ∧
     (∀ wy : ℤ, flatVoxel 2 wy = EMPTY ↔ 40 < wy)) :=
  ⟨⟨fun p hp => by rw [List.eq_of_mem_replicate hp],
    fun a b => by norm_num [zeroRes, flatRes, truncQ],
    fun a b c => by norm_num [zeroRes, flatRes]⟩,
   C2_amended_theorem zeroRes ⟨0, 0, 0⟩ 2 19 (Or.inr ⟨rfl, rfl⟩)
     (fun p hp => by rw [List.eq_of_mem_replicate hp])
     (fun a b => by norm_num [zeroRes, flatRes, truncQ])
     (fun a b c => by norm_num [zeroRes, flatRes])
     (fun h => absurd h (by decide))⟩

/-! ### The greedy mesher and mesh assembly (`world.rs` lines 611-667)

The `block_mesh` crate functions `greedy_quads`, `quad_mesh_positions`,
`quad_mesh_normals` and `quad_mesh_indices` called by `build_mesh` are an
external dependency; they are embedded here following the crate's definitions
(`RIGHT_HANDED_Y_UP_CONFIG`: six oriented faces with permutations `Xzy`,
`Yzx`, `Zxy` at both signs; greedy merging grows a quad along the `u` axis,
then row by row along the `v` axis, over unvisited mergeable faces of the
interior `[min+1, max-1]` of the padded grid, with `min = [1;3]` and
`max = [size+1;3]` as passed by `build_mesh`). -/

inductive Axis3 where
  | AX
  | AY
  | AZ
deriving DecidableEq, Repr

def axGet : Axis3 → ℕ × ℕ × ℕ → ℕ
  | .AX, p => p.1
  | .AY, p => p.2.1
  | .AZ, p => p.2.2

def axSet : Axis3 → ℕ → ℕ × ℕ × ℕ → ℕ × ℕ × ℕ
  | .AX, v, p => (v, p.2.1, p.2.2)
  | .AY, v, p => (p.1, v, p.2.2)
  | .AZ, v, p => (p.1, p.2.1, v)

structure BFace where
  nSign : ℤ
  permSign : ℤ
  nAx : Axis3
  uAx : Axis3
  vAx : Axis3
deriving DecidableEq, Repr

def meshFaces : List BFace :=
  [⟨-1, -1, .AX, .AZ, .AY⟩, ⟨-1, 1, .AY, .AZ, .AX⟩, ⟨-1, 1, .AZ, .AX, .AY⟩,
   ⟨1, -1, .AX, .AZ, .AY⟩, ⟨1, 1, .AY, .AZ, .AX⟩, ⟨1, 1, .AZ, .AX, .AY⟩]

def mkPos (f : BFace) (n0 u0 v0 : ℕ) : ℕ × ℕ × ℕ :=
  axSet f.nAx n0 (axSet f.uAx u0 (axSet f.vAx v0 (0, 0, 0)))

def nbr (f : BFace) (p : ℕ × ℕ × ℕ) : ℕ × ℕ × ℕ :=
  axSet f.nAx ((axGet f.nAx p : ℤ) + f.nSign).toNat p

def linP (n : ℕ) (p : ℕ × ℕ × ℕ) : ℕ := linearize n p.1 p.2.1 p.2.2

def isOpaque (b : BlockType) : Bool := decide (b ≠ EMPTY)

def needsMesh (vox : ℕ → BlockType) (n : ℕ) (f : BFace) (p : ℕ × ℕ × ℕ) : Bool :=
  isOpaque (vox (linP n p)) && decide (vox (linP n (nbr f p)) = EMPTY)

structure GQuad where
  min : ℕ × ℕ × ℕ
  width : ℕ
  height : ℕ
deriving DecidableEq, Repr

def runLen (ok : ℕ → Bool) (len : ℕ) : ℕ := ((List.range len).takeWhile ok).length

structure SliceState where
  visited : List (ℕ × ℕ)
  quads : List GQuad

def mergeOk (vox : ℕ → BlockType) (n : ℕ) (f : BFace) (n0 : ℕ) (seed : BlockType)
    (visited : List (ℕ × ℕ)) (u v : ℕ) : Bool :=
  decide (vox (linP n (mkPos f n0 u v)) = seed) && needsMesh vox n f (mkPos f n0 u v)
    && !(visited.contains (u, v))

def sliceStep (vox : ℕ → BlockType) (n size : ℕ) (f : BFace) (n0 : ℕ)
    (st : SliceState) (vu : ℕ × ℕ) : SliceState :=
  let v0 := vu.1
  let u0 := vu.2
  let p := mkPos f n0 u0 v0
  if needsMesh vox n f p && !(st.visited.contains (u0, v0)) then
    let seed := vox (linP n p)
    let width := 1 + runLen (fun du => mergeOk vox n f n0 seed st.visited (u0 + 1 + du) v0)
      (size - u0)
    let rowOk := fun v => (List.range width).all fun du =>
      mergeOk vox n f n0 seed st.visited (u0 + du) v
    let height := 1 + runLen (fun dv => rowOk (v0 + 1 + dv)) (size - v0)
    let newVis := (listProd (List.range width) (List.range height)).map
      (fun d => (u0 + d.1, v0 + d.2))
    { visited := st.visited ++ newVis, quads := st.quads ++ [⟨p, width, height⟩] }
  else st

def uvPairs (size : ℕ) : List (ℕ × ℕ) :=
  listProd (List.range' 2 (size - 1)) (List.range' 2 (size - 1))

def faceQuads (vox : ℕ → BlockType) (n size : ℕ) (f : BFace) : List GQuad :=
  (List.range' 2 (size - 1)).foldl
    (fun acc n0 => acc ++ ((uvPairs size).foldl (sliceStep vox n size f n0) ⟨[], []⟩).quads)
    []

def flatList {α β : Type} (f : α → List β) : List α → List β
  | [] => []
  | a :: r => f a ++ flatList f r

def allFaceQuads (vox : ℕ → BlockType) (n size : ℕ) : List (BFace × GQuad) :=
  flatList (fun f => (faceQuads vox n size f).map (fun q => (f, q))) meshFaces

def quadCorners (f : BFace) (q : GQuad) : List (ℕ × ℕ × ℕ) :=
  let minu := if 0 < f.nSign then axSet f.nAx (axGet f.nAx q.min + 1) q.min else q.min
  [minu,
   axSet f.uAx (axGet f.uAx minu + q.width) minu,
   axSet f.vAx (axGet f.vAx minu + q.height) minu,
   axSet f.vAx (axGet f.vAx minu + q.height) (axSet f.uAx (axGet f.uAx minu + q.width) minu)]

def faceNormal (f : BFace) : ℚ × ℚ × ℚ :=
  match f.nAx with
  | .AX => ((f.nSign : ℚ), 0, 0)
  | .AY => (0, (f.nSign : ℚ), 0)
  | .AZ => (0, 0, (f.nSign : ℚ))

def quadIndicesL (f : BFace) (start : ℕ) : List ℕ :=
  if 0 < f.nSign * f.permSign then
    [start, start + 1, start + 2, start + 1, start + 3, start + 2]
  else
    [start, start + 2, start + 1, start + 1, start + 2, start + 3]

def palette : BlockType → ℚ × ℚ × ℚ × ℚ
  | BlockType.Grass => (1/10, 4/5, 1/10, 1)
  | BlockType.Dirt => (11/20, 27/100, 7/100, 1)
  | BlockType.Stone => (3/5, 3/5, 3/5, 1)
  | BlockType.Wood => (11/20, 27/100, 7/100, 1)
  | BlockType.Leaf => (1/5, 3/5, 1/5, 1)
  | BlockType.Empty => (1, 1, 1, 1)

structure MeshData where
  positions : List (ℚ × ℚ × ℚ)
  normals : List (ℚ × ℚ × ℚ)
  colors : List (ℚ × ℚ × ℚ × ℚ)
  indices : List ℕ
deriving DecidableEq, Repr

def quadPositions (f : BFace) (q : GQuad) (lod : ℕ) : List (ℚ × ℚ × ℚ) :=
  (quadCorners f q).map fun c =>
    ((lod : ℚ) * c.1 - lod, (lod : ℚ) * c.2.1 - lod, (lod : ℚ) * c.2.2 - lod)

def emptyMesh : MeshData := ⟨[], [], [], []⟩

def meshStep (n lod : ℕ) (vox : ℕ → BlockType) (md : MeshData) (fq : BFace × GQuad) :
    MeshData :=
  let start := md.positions.length
  { positions := md.positions ++ quadPositions fq.1 fq.2 lod,
    normals := md.normals ++ List.replicate 4 (faceNormal fq.1),
    colors := md.colors ++ List.replicate 4 (palette (vox (linP n fq.2.min))),
    indices := md.indices ++ quadIndicesL fq.1 start }

def assembleMesh (n lod : ℕ) (vox : ℕ → BlockType) : MeshData :=
  (allFaceQuads vox n (n - 2)).foldl (meshStep n lod vox) emptyMesh

def buildMesh (n : ℕ) (coord : IVec3) (lod : ℕ) (res : NoiseRes) : MeshData :=
  assembleMesh n lod (buildVoxels n res coord lod).voxels

def generateChunkMesh (coord : IVec3) (lod : ℕ) (res : NoiseRes) : MeshData :=
  match lod with
  | 1 => buildMesh 35 coord 1 res
  | 2 => buildMesh 19 coord 2 res
  | _ => buildMesh 35 coord 1 res

/-- Bounds for an emitted quad: its minimum stays in the padded grid and all
four corner coordinates lie in `[2, size+1]` on every axis. -/
def QuadBounded (size : ℕ) (f : BFace) (q : GQuad) : Prop :=
  (q.min.1 ≤ size + 1 ∧ q.min.2.1 ≤ size + 1 ∧ q.min.2.2 ≤ size + 1) ∧
  ∀ c ∈ quadCorners f q,
    (2 ≤ c.1 ∧ c.1 ≤ size + 1) ∧ (2 ≤ c.2.1 ∧ c.2.1 ≤ size + 1) ∧
    (2 ≤ c.2.2 ∧ c.2.2 ≤ size + 1)

theorem runLen_le (ok : ℕ → Bool) (len : ℕ) : runLen ok len ≤ len := by
  unfold runLen
  calc ((List.range len).takeWhile ok).length ≤ (List.range len).length :=
        (List.takeWhile_sublist ok).length_le
    _ = len := List.length_range len

theorem quad_bounds_of (size : ℕ) (f : BFace) (hf : f ∈ meshFaces) (n0 u0 v0 w h : ℕ)
    (hn : 2 ≤ n0 ∧ n0 + 1 ≤ size + 1) (hu : 2 ≤ u0 ∧ u0 + w ≤ size + 1) (hw1 : 1 ≤ w)
    (hv : 2 ≤ v0 ∧ v0 + h ≤ size + 1) (hh1 : 1 ≤ h) :
    QuadBounded size f ⟨mkPos f n0 u0 v0, w, h⟩ := by
  fin_cases hf <;>
    · constructor
      · simp only [mkPos, axSet, axGet]
        omega
      · intro c hc
        simp only [quadCorners, mkPos, axSet, axGet] at hc
        split_ifs at hc <;> simp_all <;> rcases hc with rfl | rfl | rfl | rfl <;>
          simp [axSet, axGet] <;> omega

theorem sliceStep_quads (vox : ℕ → BlockType) (n size : ℕ) (f : BFace) (n0 : ℕ)
    (st : SliceState) (vu : ℕ × ℕ) :
    ∀ q ∈ (sliceStep vox n size f n0 st vu).quads, q ∈ st.quads ∨
      (∃ w h, q = ⟨mkPos f n0 vu.2 vu.1, w, h⟩ ∧ 1 ≤ w ∧ 1 ≤ h ∧
        w ≤ 1 + (size - vu.2) ∧ h ≤ 1 + (size - vu.1)) := by
  intro q hq
  unfold sliceStep at hq
  by_cases hc : (needsMesh vox n f (mkPos f n0 vu.2 vu.1)
      && !(st.visited.contains (vu.2, vu.1))) = true
  · simp only [hc, if_true] at hq
    rcases List.mem_append.mp hq with hm | hm
    · exact Or.inl hm
    · rcases List.mem_singleton.mp hm with rfl
      refine Or.inr ⟨_, _, rfl, by omega, by omega, ?_, ?_⟩
      · have := runLen_le (fun du => mergeOk vox n f n0 (vox (linP n (mkPos f n0 vu.2 vu.1)))
          st.visited (vu.2 + 1 + du) vu.1) (size - vu.2)
        omega
      · have := runLen_le (fun dv => (List.range (1 + runLen (fun du =>
          mergeOk vox n f n0 (vox (linP n (mkPos f n0 vu.2 vu.1))) st.visited (vu.2 + 1 + du)
            vu.1) (size - vu.2))).all fun du =>
          mergeOk vox n f n0 (vox (linP n (mkPos f n0 vu.2 vu.1))) st.visited (vu.2 + du)
            (vu.1 + 1 + dv)) (size - vu.1)
        omega
  · simp only [hc, if_false] at hq
    exact Or.inl hq

theorem foldl_quads_inv {σ : Type} (step : SliceState → σ → SliceState)
    (P : σ → GQuad → Prop)
    (hstep : ∀ st x q, q ∈ (step st x).quads → q ∈ st.quads ∨ P x q) :
    ∀ (L : List σ) (st : SliceState) (q : GQuad),
      q ∈ (L.foldl step st).quads → q ∈ st.quads ∨ ∃ x ∈ L, P x q := by
  intro L
  induction L with
  | nil => exact fun st q hq => Or.inl hq
  | cons a L ih =>
    intro st q hq
    rcases ih (step st a) q hq with hin | ⟨x, hx, hP⟩
    · rcases hstep st a q hin with hin2 | hP
      · exact Or.inl hin2
      · exact Or.inr ⟨a, List.mem_cons_self _ _, hP⟩
    · exact Or.inr ⟨x, List.mem_cons_of_mem _ hx, hP⟩

theorem foldl_append_mem {α β : Type} (g : α → List β) (L : List α) (acc : List β) (b : β)
    (hb : b ∈ L.foldl (fun a x => a ++ g x) acc) : b ∈ acc ∨ ∃ x ∈ L, b ∈ g x := by
  induction L generalizing acc with
  | nil => exact Or.inl hb
  | cons a L ih =>
    rcases ih (acc ++ g a) hb with hin | ⟨x, hx, hgx⟩
    · rcases List.mem_append.mp hin with h1 | h1
      · exact Or.inl h1
      · exact Or.inr ⟨a, List.mem_cons_self _ _, h1⟩
    · exact Or.inr ⟨x, List.mem_cons_of_mem _ hx, hgx⟩

theorem faceQuads_bounded (vox : ℕ → BlockType) (n size : ℕ) (f : BFace)
    (hf : f ∈ meshFaces) (hsz : 1 ≤ size) :
    ∀ q ∈ faceQuads vox n size f, QuadBounded size f q := by
  intro q hq
  unfold faceQuads at hq
  rcases foldl_append_mem _ _ _ _ hq with hin | ⟨n0, hn0, hq2⟩
  · cases hin
  · rcases foldl_quads_inv (sliceStep vox n size f n0) _
        (sliceStep_quads vox n size f n0) _ _ _ hq2 with hin | ⟨vu, hvu, w, h, rfl, hw1, hh1, hwle, hhle⟩
    · cases hin
    · have hn0b := List.mem_range'_1.mp hn0
      have hvub := mem_listProd.mp hvu
      have hub := List.mem_range'_1.mp hvub.2
      have hvb := List.mem_range'_1.mp hvub.1
      exact quad_bounds_of size f hf n0 vu.2 vu.1 w h (by omega) (by omega) hw1
        (by omega) hh1

theorem mem_flatList {α β : Type} {f : α → List β} {L : List α} {b : β} :
    b ∈ flatList f L ↔ ∃ a ∈ L, b ∈ f a := by
  induction L with
  | nil => simp [flatList]
  | cons a L ih =>
    simp only [flatList, List.mem_append, ih, List.mem_cons]
    constructor
    · rintro (h1 | ⟨x, hx, h2⟩)
      · exact ⟨a, Or.inl rfl, h1⟩
      · exact ⟨x, Or.inr hx, h2⟩
    · rintro ⟨x, rfl | hx, h2⟩
      · exact Or.inl h2
      · exact Or.inr ⟨x, hx, h2⟩

theorem allFaceQuads_bounded (vox : ℕ → BlockType) (n size : ℕ) (hsz : 1 ≤ size) :
    ∀ fq ∈ allFaceQuads vox n size, fq.1 ∈ meshFaces ∧ QuadBounded size fq.1 fq.2 := by
  intro fq hfq
  rcases mem_flatList.mp hfq with ⟨f, hf, hmem⟩
  rcases List.mem_map.mp hmem with ⟨q, hq, rfl⟩
  exact ⟨hf, faceQuads_bounded vox n size f hf hsz q hq⟩

theorem quadPositions_length (f : BFace) (q : GQuad) (lod : ℕ) :
    (quadPositions f q lod).length = 4 := by
  unfold quadPositions quadCorners
  simp

theorem quadIndicesL_length (f : BFace) (start : ℕ) : (quadIndicesL f start).length = 6 := by
  unfold quadIndicesL
  split_ifs <;> rfl

theorem assemble_lengths (n lod : ℕ) (vox : ℕ → BlockType) (L : List (BFace × GQuad))
    (md : MeshData) :
    ((L.foldl (meshStep n lod vox) md).positions.length
        = md.positions.length + 4 * L.length) ∧
    ((L.foldl (meshStep n lod vox) md).normals.length
        = md.normals.length + 4 * L.length) ∧
    ((L.foldl (meshStep n lod vox) md).colors.length
        = md.colors.length + 4 * L.length) ∧
    ((L.foldl (meshStep n lod vox) md).indices.length
        = md.indices.length + 6 * L.length) := by
  induction L generalizing md with
  | nil => simp
  | cons a L ih =>
    rcases ih (meshStep n lod vox md a) with ⟨h1, h2, h3, h4⟩
    rw [List.foldl_cons]
    refine ⟨?_, ?_, ?_, ?_⟩
    · rw [h1]
      simp only [meshStep, List.length_append, quadPositions_length, List.length_cons]
      ring
    · rw [h2]
      simp only [meshStep, List.length_append, List.length_replicate, List.length_cons]
      ring
    · rw [h3]
      simp only [meshStep, List.length_append, List.length_replicate, List.length_cons]
      ring
    · rw [h4]
      simp only [meshStep, List.length_append, quadIndicesL_length, List.length_cons]
      ring

theorem assemble_positions_mem (n lod : ℕ) (vox : ℕ → BlockType)
    (L : List (BFace × GQuad)) (md : MeshData) :
    ∀ p ∈ (L.foldl (meshStep n lod vox) md).positions,
      p ∈ md.positions ∨ ∃ fq ∈ L, p ∈ quadPositions fq.1 fq.2 lod := by
  induction L generalizing md with
  | nil => exact fun p hp => Or.inl hp
  | cons a L ih =>
    intro p hp
    rcases ih (meshStep n lod vox md a) p hp with h1 | ⟨fq, hfq, h2⟩
    · rcases List.mem_append.mp h1 with h3 | h3
      · exact Or.inl h3
      · exact Or.inr ⟨a, List.mem_cons_self _ _, h3⟩
    · exact Or.inr ⟨fq, List.mem_cons_of_mem _ hfq, h2⟩

theorem assemble_colors (n lod : ℕ) (vox : ℕ → BlockType) (L : List (BFace × GQuad))
    (md : MeshData) :
    (L.foldl (meshStep n lod vox) md).colors
      = md.colors
        ++ flatList (fun fq => List.replicate 4 (palette (vox (linP n fq.2.min)))) L := by
  induction L generalizing md with
  | nil => simp [flatList]
  | cons a L ih =>
    rw [List.foldl_cons, ih]
    simp [meshStep, flatList]

/-- C6: for every voxel grid at the two (LOD, grid-size) instantiations of
`generate_chunk_mesh`, the emitted mesh has exactly four vertices (and four
normals and colors) and six indices — two triangles — per quad, hence an even
non-negative triangle count, and every vertex position lies in the cube
`[0, CHUNK_SIZE + lod]³` (the chunk cube plus the one-voxel padding offset
after LOD scaling and the `-lod` padding shift). -/
theorem C6_mesh_shape (vox : ℕ → BlockType) (lod n : ℕ)
    (hln : (lod = 1 ∧ n = 35) ∨ (lod = 2 ∧ n = 19)) :
    (assembleMesh n lod vox).positions.length = 4 * (allFaceQuads vox n (n - 2)).length ∧
    (assembleMesh n lod vox).normals.length = 4 * (allFaceQuads vox n (n - 2)).length ∧
    (assembleMesh n lod vox).colors.length = 4 * (allFaceQuads vox n (n - 2)).length ∧
    (assembleMesh n lod vox).indices.length = 6 * (allFaceQuads vox n (n - 2)).length ∧
    2 ∣ (assembleMesh n lod vox).indices.length / 3 ∧
    ∀ p ∈ (assembleMesh n lod vox).positions,
      (0 ≤ p.1 ∧ p.1 ≤ 32 + (lod : ℚ)) ∧ (0 ≤ p.2.1 ∧ p.2.1 ≤ 32 + (lod : ℚ)) ∧
      (0 ≤ p.2.2 ∧ p.2.2 ≤ 32 + (lod : ℚ)) := by
  rcases assemble_lengths n lod vox (allFaceQuads vox n (n - 2)) emptyMesh
    with ⟨h1, h2, h3, h4⟩
  have hE : ∀ m : List (ℚ × ℚ × ℚ), m = ([] : List (ℚ × ℚ × ℚ)) → m.length = 0 :=
    fun m hm => hm ▸ rfl
  refine ⟨by simpa [assembleMesh, emptyMesh] using h1,
    by simpa [assembleMesh, emptyMesh] using h2,
    by simpa [assembleMesh, emptyMesh] using h3,
    by simpa [assembleMesh, emptyMesh] using h4, ?_, ?_⟩
  · have h4e : (assembleMesh n lod vox).indices.length
        = 6 * (allFaceQuads vox n (n - 2)).length := by
      simpa [assembleMesh, emptyMesh] using h4
    rw [h4e]
    omega
  · intro p hp
    have hsz : 1 ≤ n - 2 := by rcases hln with ⟨_, rfl⟩ | ⟨_, rfl⟩ <;> omega
    rcases assemble_positions_mem n lod vox (allFaceQuads vox n (n - 2)) emptyMesh p
      (by simpa [assembleMesh] using hp) with hin | ⟨fq, hfq, hpq⟩
    · cases hin
    · rcases allFaceQuads_bounded vox n (n - 2) hsz fq hfq with ⟨_, _, hcbound⟩
      rcases List.mem_map.mp hpq with ⟨c, hc, rfl⟩
      rcases hcbound c hc with ⟨⟨ha1, ha2⟩, ⟨hb1, hb2⟩, ⟨hc1, hc2⟩⟩
      have hup : n - 2 + 1 = n - 1 := by omega
      have hlodQ : (1:ℚ) ≤ (lod : ℚ) := by
        rcases hln with ⟨rfl, _⟩ | ⟨rfl, _⟩ <;> norm_num
      have key : ∀ k : ℕ, 2 ≤ k → k ≤ n - 1 →
          (0 ≤ (lod : ℚ) * k - lod ∧ (lod : ℚ) * k - lod ≤ 32 + lod) := by
        intro k hk1 hk2
        have hkQ : (2:ℚ) ≤ (k : ℚ) := by exact_mod_cast hk1
        constructor
        · nlinarith
        · rcases hln with ⟨rfl, rfl⟩ | ⟨rfl, rfl⟩
          · have : (k:ℚ) ≤ 34 := by exact_mod_cast (by omega : k ≤ 34)
            push_cast
            linarith
          · have : (k:ℚ) ≤ 18 := by exact_mod_cast (by omega : k ≤ 18)
            push_cast
            linarith
      exact ⟨key c.1 ha1 (by omega), key c.2.1 hb1 (by omega), key c.2.2 hc1 (by omega)⟩

/-- Witness for `C6_mesh_shape` on the all-empty grid at LOD 1. -/
theorem C6_witness :
    (((1:ℕ) = 1 ∧ (35:ℕ) = 35) ∨ ((1:ℕ) = 2 ∧ (35:ℕ) = 19)) ∧
    ((assembleMesh 35 1 (fun _ => EMPTY)).positions.length
        = 4 * (allFaceQuads (fun _ => EMPTY) 35 (35 - 2)).length ∧
     (assembleMesh 35 1 (fun _ => EMPTY)).normals.length
        = 4 * (allFaceQuads (fun _ => EMPTY) 35 (35 - 2)).length ∧
     (assembleMesh 35 1 (fun _ => EMPTY)).colors.length
        = 4 * (allFaceQuads (fun _ => EMPTY) 35 (35 - 2)).length ∧
     (assembleMesh 35 1 (fun _ => EMPTY)).indices.length
        = 6 * (allFaceQuads (fun _ => EMPTY) 35 (35 - 2)).length ∧
     2 ∣ (assembleMesh 35 1 (fun _ => EMPTY)).indices.length / 3 ∧
     ∀ p ∈ (assembleMesh 35 1 (fun _ => EMPTY)).positions,
       (0 ≤ p.1 ∧ p.1 ≤ 32 + ((1:ℕ) : ℚ)) ∧ (0 ≤ p.2.1 ∧ p.2.1 ≤ 32 + ((1:ℕ) : ℚ)) ∧
       (0 ≤ p.2.2 ∧ p.2.2 ≤ 32 + ((1:ℕ) : ℚ))) :=
  ⟨Or.inl ⟨rfl, rfl⟩, C6_mesh_shape (fun _ => EMPTY) 1 35 (Or.inl ⟨rfl, rfl⟩)⟩

/-- C7: the color buffer of the assembled mesh is exactly, per quad, four
copies of the palette color of the `BlockType` of the voxel at the quad's
minimum corner (`voxels[shape.linearize(quad.minimum)]`), with the fixed
palette: grass green, dirt brown, stone gray, wood brown, leaf dark green,
and anything else white. -/
theorem C7_quad_colors (n lod : ℕ) (vox : ℕ → BlockType) :
    (assembleMesh n lod vox).colors
      = flatList (fun fq => List.replicate 4 (palette (vox (linP n fq.2.min))))
          (allFaceQuads vox n (n - 2)) ∧
    palette GRASS = (1/10, 4/5, 1/10, 1) ∧
    palette DIRT = (11/20, 27/100, 7/100, 1) ∧
    palette STONE = (3/5, 3/5, 3/5, 1) ∧
    palette WOOD = (11/20, 27/100, 7/100, 1) ∧
    palette LEAF = (1/5, 3/5, 1/5, 1) ∧
    palette EMPTY = (1, 1, 1, 1) := by
  refine ⟨?_, rfl, rfl, rfl, rfl, rfl, rfl⟩
  have h := assemble_colors n lod vox (allFaceQuads vox n (n - 2)) emptyMesh
  simpa [assembleMesh, emptyMesh] using h

/-- C8: `set_block` silently drops writes whose local index falls outside
`[0, size+1]` on any axis (the state is unchanged); when the guard holds the
written linear index is within the padded grid (`< n³`), and every quad the
greedy mesher emits has its minimum's linear index within the padded grid, so
the repo's `voxels[shape.linearize(quad.minimum)]` read is in bounds. -/
theorem C8_bounds (n : ℕ) (hn : 3 ≤ n) (coord : IVec3) (lod : ℕ) (st : GenState)
    (wx wy wz : ℤ) (b : BlockType) :
    (¬ setBlockGuard n (localIx coord.x lod wx) (localIx coord.y lod wy)
        (localIx coord.z lod wz) →
      setBlockG n coord lod st wx wy wz b = st) ∧
    (setBlockGuard n (localIx coord.x lod wx) (localIx coord.y lod wy)
        (localIx coord.z lod wz) →
      linearize n (localIx coord.x lod wx).toNat (localIx coord.y lod wy).toNat
        (localIx coord.z lod wz).toNat < n * n * n) ∧
    (∀ (vox : ℕ → BlockType) (fq : BFace × GQuad), fq ∈ allFaceQuads vox n (n - 2) →
      linP n fq.2.min < n * n * n) := by
  refine ⟨?_, ?_, ?_⟩
  · intro h
    simp only [setBlockG]
    rw [if_neg h]
  · intro h
    rcases h with ⟨h1, h2, h3, h4, h5, h6⟩
    refine linearize_lt ?_ ?_ ?_ <;> omega
  · intro vox fq hfq
    have hsz : 1 ≤ n - 2 := by omega
    rcases allFaceQuads_bounded vox n (n - 2) hsz fq hfq with ⟨_, ⟨hm1, hm2, hm3⟩, _⟩
    exact linearize_lt (by omega) (by omega) (by omega)

/-- Witness for `C8_bounds` at the LOD-1 grid with the origin chunk. -/
theorem C8_witness :
    3 ≤ 35 ∧
    ((¬ setBlockGuard 35 (localIx 0 1 0) (localIx 0 1 0) (localIx 0 1 0) →
        setBlockG 35 ⟨0, 0, 0⟩ 1 initGen 0 0 0 STONE = initGen) ∧
     (setBlockGuard 35 (localIx 0 1 0) (localIx 0 1 0) (localIx 0 1 0) →
        linearize 35 (localIx 0 1 0).toNat (localIx 0 1 0).toNat (localIx 0 1 0).toNat
          < 35 * 35 * 35) ∧
     (∀ (vox : ℕ → BlockType) (fq : BFace × GQuad), fq ∈ allFaceQuads vox 35 33 →
        linP 35 fq.2.min < 35 * 35 * 35)) :=
  ⟨by decide, C8_bounds 35 (by decide) ⟨0, 0, 0⟩ 1 initGen 0 0 0 STONE⟩

/-- The voxel grid produced for a generation request, with the LOD dispatch of
`generate_chunk_mesh` (`world.rs` lines 361-367). -/
def voxelGridFor (coord : IVec3) (lod : ℕ) (res : NoiseRes) : ℕ → BlockType :=
  match lod with
  | 1 => (buildVoxels 35 res coord 1).voxels
  | 2 => (buildVoxels 19 res coord 2).voxels
  | _ => (buildVoxels 35 res coord 1).voxels

/-- A sequence of background generation requests, each producing its voxel
grid and mesh purely from the request and the (snapshotted) sampler
configuration. -/
def runGeneration (res : NoiseRes) (reqs : List (IVec3 × ℕ)) :
    List ((ℕ → BlockType) × MeshData) :=
  reqs.map fun r => (voxelGridFor r.1 r.2 res, generateChunkMesh r.1 r.2 res)

/-- C3: chunk generation is deterministic and independent of request order:
any two requests in a run that agree on coordinate and LOD produce bit-identical
voxel grids and meshes, whatever their positions in the sequence. -/
theorem C3_determinism (res : NoiseRes) (reqs : List (IVec3 × ℕ)) (i j : ℕ)
    (h : reqs[i]? = reqs[j]?) :
    (runGeneration res reqs)[i]? = (runGeneration res reqs)[j]? := by
  simp only [runGeneration, List.getElem?_map, h]

/-- Witness for `C3_determinism`: the same request issued twice. -/
theorem C3_witness :
    ([(⟨0, 0, 0⟩, 1), (⟨0, 0, 0⟩, 1)] : List (IVec3 × ℕ))[0]?
        = ([(⟨0, 0, 0⟩, 1), (⟨0, 0, 0⟩, 1)] : List (IVec3 × ℕ))[1]? ∧
    (runGeneration zeroRes [(⟨0, 0, 0⟩, 1), (⟨0, 0, 0⟩, 1)])[0]?
        = (runGeneration zeroRes [(⟨0, 0, 0⟩, 1), (⟨0, 0, 0⟩, 1)])[1]? :=
  ⟨rfl, C3_determinism zeroRes [(⟨0, 0, 0⟩, 1), (⟨0, 0, 0⟩, 1)] 0 1 rfl⟩

/-- C10: `generate_chunk_mesh` with any LOD other than 1 or 2 does not fail:
its wildcard arm builds the mesh at full resolution with LOD 1, so the result
equals an explicit LOD-1 request for the same coordinate. -/
theorem C10_lod_fallback (coord : IVec3) (res : NoiseRes) (lod : ℕ)
    (h1 : lod ≠ 1) (h2 : lod ≠ 2) :
    generateChunkMesh coord lod res = generateChunkMesh coord 1 res := by
  match lod, h1, h2 with
  | 0, _, _ => rfl
  | (k + 3), _, _ => rfl

/-- Witness for `C10_lod_fallback` at LOD 7. -/
theorem C10_witness :
    (7 : ℕ) ≠ 1 ∧ (7 : ℕ) ≠ 2 ∧
    generateChunkMesh ⟨0, 0, 0⟩ 7 zeroRes = generateChunkMesh ⟨0, 0, 0⟩ 1 zeroRes :=
  ⟨by decide, by decide, C10_lod_fallback ⟨0, 0, 0⟩ zeroRes 7 (by decide) (by decide)⟩

/-- One terrain octave `{seed, frequency, amplitude}` (`settings.rs` `NoiseLayer`). -/
structure NoiseLayerS where
  seed : ℤ
  frequency : ℚ
  amplitude : ℚ
deriving DecidableEq, Repr

/-- The persisted noise configuration (`settings.rs` `NoiseSettings`; the
`[NoiseLayer; 5]` array is embedded as a list). -/
structure NoiseSettingsS where
  layers : List NoiseLayerS
deriving DecidableEq, Repr

/-- The built-in five-layer default configuration (`settings.rs` lines 24-52). -/
def defaultNoiseSettings : NoiseSettingsS :=
  ⟨[⟨0, 1/100, 10⟩, ⟨1, 3/100, 5⟩, ⟨2, 2/25, 2⟩, ⟨4, 4/25, 1⟩, ⟨5, 8/25, 1/2⟩]⟩

/-- `NoiseSettings::default` (`settings.rs` lines 17-54): `readData` models the
result of `fs::read_to_string("settings.json")` and `parse` models
`serde_json::from_str::<NoiseSettings>`; a readable document that parses wins,
anything else falls back to the built-in defaults. -/
def loadNoiseSettings (readData : Option String)
    (parse : String → Option NoiseSettingsS) : NoiseSettingsS :=
  match readData with
  | some data =>
      match parse data with
      | some cfg => cfg
      | none => defaultNoiseSettings
  | none => defaultNoiseSettings

/-- C9: loading returns the parsed persisted configuration when the settings
document exists and parses as a valid `NoiseSettings`, and otherwise (file
missing or malformed) returns the fixed built-in five-layer default
configuration without surfacing an error (the function is total). -/
theorem C9_settings_fallback (readData : Option String)
    (parse : String → Option NoiseSettingsS) :
    (∀ data cfg, readData = some data → parse data = some cfg →
      loadNoiseSettings readData parse = cfg) ∧
    (∀ data, readData = some data → parse data = none →
      loadNoiseSettings readData parse = defaultNoiseSettings) ∧
    (readData = none → loadNoiseSettings readData parse = defaultNoiseSettings) ∧
    defaultNoiseSettings.layers.length = 5 := by
  refine ⟨?_, ?_, ?_, rfl⟩
  · rintro data cfg rfl hp
    simp [loadNoiseSettings, hp]
  · rintro data rfl hp
    simp [loadNoiseSettings, hp]
  · rintro rfl
    rfl

/-- Witness for `C9_settings_fallback`: a malformed document, a missing
document, and a valid document. -/
theorem C9_witness :
    loadNoiseSettings (some "x") (fun _ => none) = defaultNoiseSettings ∧
    loadNoiseSettings none (fun _ => none) = defaultNoiseSettings ∧
    loadNoiseSettings (some "x") (fun _ => some ⟨[]⟩) = ⟨[]⟩ :=
  ⟨(C9_settings_fallback (some "x") (fun _ => none)).2.1 "x" rfl rfl,
   (C9_settings_fallback none (fun _ => none)).2.2.1 rfl,
   (C9_settings_fallback (some "x") (fun _ => some ⟨[]⟩)).1 "x" ⟨[]⟩ rfl rfl⟩

end ProjectRube
